import Mathlib

/-!
# Verification of the xcel reflection bridge

A shallow embedding, in Lean 4, of the reflection-driven CEL bridge of the
`picatz/xcel` repository (files `object.go`, `type_provider.go`,
`type_adapter.go`), together with theorems settling the frozen claims about
its natural-language specification.

Conventions of the embedding:

* Go's `reflect` values are modelled by explicit inductive data; machine
  details irrelevant to the claims (e.g. the numeric payload of an `int`)
  are carried as opaque `Nat` payloads.
* Go maps keyed by strings or by `reflect.Type` are modelled as association
  lists with overwrite-on-insert semantics (`alInsert`); Go map lookup is
  `alFind`.  Go's random iteration order is irrelevant wherever we use it:
  either only key lookup matters, or keys are pairwise distinct.
* Go `panic` is modelled by `Except.error`.
* Field identifiers are ASCII (as all identifiers appearing in the
  repository are), so Go's `unicode.IsUpper`/`IsLower`/`ToLower` coincide
  with `Char.isUpper`/`isLower`/`toLower`.
-/

set_option autoImplicit false

/-! ## Association-list primitives (model of Go maps) -/

/-- Lookup in an association list; model of Go map indexing `m[k]`. -/
def alFind {α : Type} (l : List (String × α)) (k : String) : Option α :=
  match l with
  | [] => none
  | (k', v) :: rest => if k' = k then some v else alFind rest k

/-- Insert with overwrite; model of Go map assignment `m[k] = v`. -/
def alInsert {α : Type} (l : List (String × α)) (k : String) (v : α) :
    List (String × α) :=
  match l with
  | [] => [(k, v)]
  | (k', v') :: rest =>
      if k' = k then (k, v) :: rest else (k', v') :: alInsert rest k v

/-- The key set of an association list (Go: ranging over map keys). -/
def alKeys {α : Type} (l : List (String × α)) : List String :=
  l.map Prod.fst

theorem alKeys_cons {α : Type} (p : String × α) (t : List (String × α)) :
    alKeys (p :: t) = p.1 :: alKeys t := rfl

theorem alFind_alInsert_self {α : Type} (l : List (String × α)) (k : String)
    (v : α) : alFind (alInsert l k v) k = some v := by
  induction l with
  | nil => simp [alInsert, alFind]
  | cons h t ih =>
      by_cases hk : h.1 = k
      · simp [alInsert, hk, alFind]
      · simp [alInsert, hk, alFind, ih]

theorem alFind_alInsert_ne {α : Type} (l : List (String × α)) (k k' : String)
    (v : α) (h : k ≠ k') : alFind (alInsert l k v) k' = alFind l k' := by
  have h' : ¬(k' = k) := fun e => h e.symm
  induction l with
  | nil => simp [alInsert, alFind, h]
  | cons hd t ih =>
      by_cases hk : hd.1 = k
      · simp [alInsert, hk, alFind, h, h']
      · by_cases hk' : hd.1 = k'
        · simp [alInsert, hk, alFind, hk', h']
        · simp [alInsert, hk, alFind, hk', ih]

theorem alFind_eq_none_iff {α : Type} (l : List (String × α)) (k : String) :
    alFind l k = none ↔ k ∉ alKeys l := by
  induction l with
  | nil => simp [alFind, alKeys]
  | cons h t ih =>
      rw [alKeys_cons]
      by_cases hk : h.1 = k
      · simp [alFind, hk]
      · have hk' : ¬(k = h.1) := fun e => hk e.symm
        simp [alFind, hk, hk', ih]

theorem alKeys_alInsert_fresh {α : Type} (l : List (String × α)) (k : String)
    (v : α) (h : k ∉ alKeys l) :
    alKeys (alInsert l k v) = alKeys l ++ [k] := by
  induction l with
  | nil => simp [alInsert, alKeys]
  | cons hd t ih =>
      rw [alKeys_cons] at h
      simp only [List.mem_cons] at h
      push_neg at h
      rw [alInsert]
      rw [if_neg (fun e => h.1 e.symm)]
      rw [alKeys_cons, alKeys_cons, ih h.2]
      rfl

/-! ## Model of `presenceIsSet` (src/object.go lines 26–44)

`presenceIsSet` inspects, on a `reflect.Value`: its type (whether it is
`time.Time`), its kind, for pointer types whether the element type is
`time.Time`, nil-ness, and zero-ness of the value or pointee.  `RVal`
records exactly these observations. -/

/-- The `reflect.Kind` of a field value, restricted to the distinctions
`presenceIsSet` makes. -/
inductive RKind where
  | ptrK | sliceK | mapK | ifaceK | funcK | chanK
  | structK | intK | uintK | floatK | boolK | stringK | arrayK
  deriving DecidableEq, Repr

/-- A `reflect.Value` as observed by `presenceIsSet`. -/
structure RVal where
  /-- `fv.Kind()` -/
  kind : RKind
  /-- `fv.Type() == goTimeType` (a `time.Time` by value; kind `structK`). -/
  isTime : Bool
  /-- for pointers: `fv.Type().Elem() == goTimeType` -/
  elemIsTime : Bool
  /-- `fv.IsNil()` (meaningful for nil-able kinds) -/
  isNil : Bool
  /-- `fv.IsZero()` -/
  isZero : Bool
  /-- for a non-nil pointer: `fv.Elem().IsZero()` -/
  pointeeIsZero : Bool
  deriving DecidableEq, Repr

/-- Model of `presenceIsSet` (src/object.go lines 26–44): rules applied in
source order — `time.Time`, then `*time.Time`, then the kind switch. -/
def presenceIsSet (fv : RVal) : Bool :=
  if fv.isTime then
    !fv.isZero
  else if fv.kind = .ptrK ∧ fv.elemIsTime then
    if fv.isNil then false else !fv.pointeeIsZero
  else
    match fv.kind with
    | .ptrK | .sliceK | .mapK | .ifaceK | .funcK | .chanK => !fv.isNil
    | _ => true

/-! ## Model of `toSnakeCase` (src/object.go lines 326–342)

The Go loop ranges over the string's runes, indexing neighbouring bytes;
for ASCII identifiers byte and rune positions coincide, so the model
iterates over character positions. -/

/-- What one iteration of the `toSnakeCase` loop writes for position `i`. -/
def snakeStep (s : List Char) (i : Nat) : List Char :=
  let r := s.getD i ' '
  if r.isUpper then
    (if i > 0 ∧
        (s.getD (i - 1) ' ' ≠ '_' ∧
          ((s.getD (i - 1) ' ').isLower = true ∨
            (i + 1 < s.length ∧ (s.getD (i + 1) ' ').isLower = true)))
      then ['_'] else []) ++ [r.toLower]
  else [r]

/-- Model of `toSnakeCase` on the character list: the loop appends the
per-position output to a string builder. -/
def toSnakeCaseList (s : List Char) : List Char :=
  (List.range s.length).foldl (fun b i => b ++ snakeStep s i) []

/-- Model of `toSnakeCase` (src/object.go lines 326–342). -/
def toSnakeCase (s : String) : String :=
  ⟨toSnakeCaseList s.data⟩

/-! ## Supporting lemmas for `toSnakeCase` -/

theorem isUpper_ofNat_shift (n : Nat) (h1 : 65 ≤ n) (h2 : n ≤ 90) :
    (Char.ofNat (n + 32)).isUpper = false := by
  interval_cases n <;> decide

theorem char_le_iff (a : UInt32) (c : Char) : (a ≤ c.val) ↔ (a.toNat ≤ c.toNat) := by
  rw [UInt32.le_def, BitVec.le_def]
  rfl

theorem char_le_iff' (a : UInt32) (c : Char) : (c.val ≤ a) ↔ (c.toNat ≤ a.toNat) := by
  rw [UInt32.le_def, BitVec.le_def]
  rfl

theorem isUpper_toLower (c : Char) : (Char.toLower c).isUpper = false := by
  unfold Char.toLower
  simp only []
  by_cases h : c.toNat ≥ 65 ∧ c.toNat ≤ 90
  · rw [if_pos h]
    exact isUpper_ofNat_shift c.toNat h.1 h.2
  · rw [if_neg h]
    unfold Char.isUpper
    rw [Bool.and_eq_false_iff]
    by_cases h1 : (65 : UInt32) ≤ c.val
    · right
      rw [decide_eq_false_iff_not]
      intro hle
      exact h ⟨(char_le_iff 65 c).1 h1, (char_le_iff' 90 c).1 hle⟩
    · left
      rw [decide_eq_false_iff_not]
      exact h1

theorem snakeStep_no_upper (s : List Char) (i : Nat) (c : Char)
    (hc : c ∈ snakeStep s i) : c.isUpper = false := by
  unfold snakeStep at hc
  by_cases hu : (s.getD i ' ').isUpper
  · rw [if_pos hu] at hc
    rcases List.mem_append.1 hc with h1 | h1
    · split at h1
      · simp at h1
        subst h1
        decide
      · simp at h1
    · simp at h1
      subst h1
      exact isUpper_toLower _
  · rw [if_neg hu] at hc
    rw [List.mem_singleton] at hc
    subst hc
    exact Bool.eq_false_iff.2 hu

theorem toSnakeCase_foldl_no_upper (s : List Char) (l : List Nat)
    (init : List Char) (h0 : ∀ c ∈ init, c.isUpper = false) :
    ∀ c ∈ l.foldl (fun b i => b ++ snakeStep s i) init, c.isUpper = false := by
  induction l generalizing init with
  | nil => exact h0
  | cons i t ih =>
      intro c hc
      refine ih (init ++ snakeStep s i) ?_ c hc
      intro c' hc'
      rcases List.mem_append.1 hc' with h1 | h1
      · exact h0 c' h1
      · exact snakeStep_no_upper s i c' h1

/-! ## Claim C1 — the presence rule table -/

/-- C1: the presence predicate follows the fixed-priority rule table of
`presenceIsSet`: a `time.Time` by value is present iff not the zero instant;
a `*time.Time` is present iff non-nil with a non-zero pointee (in particular
a non-nil pointer to the zero instant is NOT present); pointer, slice, map,
interface, func and chan fields are present iff non-nil; every other kind
(numeric, boolean, string, fixed-size aggregates such as plain structs and
arrays) is present even at its zero value. -/
theorem presence_rule_table :
    (∀ (k : RKind) (e n z p : Bool),
        presenceIsSet ⟨k, true, e, n, z, p⟩ = !z) ∧
    (∀ (z p : Bool),
        presenceIsSet ⟨.ptrK, false, true, false, z, p⟩ = !p) ∧
    (∀ (z : Bool),
        presenceIsSet ⟨.ptrK, false, true, false, z, true⟩ = false) ∧
    (∀ (z p : Bool),
        presenceIsSet ⟨.ptrK, false, true, true, z, p⟩ = false) ∧
    (∀ (n z p : Bool),
        presenceIsSet ⟨.ptrK, false, false, n, z, p⟩ = !n) ∧
    (∀ (e n z p : Bool),
        presenceIsSet ⟨.sliceK, false, e, n, z, p⟩ = !n) ∧
    (∀ (e n z p : Bool),
        presenceIsSet ⟨.mapK, false, e, n, z, p⟩ = !n) ∧
    (∀ (e n z p : Bool),
        presenceIsSet ⟨.ifaceK, false, e, n, z, p⟩ = !n) ∧
    (∀ (e n z p : Bool),
        presenceIsSet ⟨.funcK, false, e, n, z, p⟩ = !n) ∧
    (∀ (e n z p : Bool),
        presenceIsSet ⟨.chanK, false, e, n, z, p⟩ = !n) ∧
    (∀ (e n z p : Bool),
        presenceIsSet ⟨.intK, false, e, n, z, p⟩ = true ∧
        presenceIsSet ⟨.uintK, false, e, n, z, p⟩ = true ∧
        presenceIsSet ⟨.floatK, false, e, n, z, p⟩ = true ∧
        presenceIsSet ⟨.boolK, false, e, n, z, p⟩ = true ∧
        presenceIsSet ⟨.stringK, false, e, n, z, p⟩ = true ∧
        presenceIsSet ⟨.structK, false, e, n, z, p⟩ = true ∧
        presenceIsSet ⟨.arrayK, false, e, n, z, p⟩ = true) := by
  refine ⟨fun k e n z p => by cases k <;> simp [presenceIsSet],
    ?_, ?_, ?_, ?_, ?_, ?_, ?_, ?_, ?_, ?_⟩ <;> (intros; simp [presenceIsSet])

/-! ## Claim C9 — snake_case name derivation -/

/-- C9: the derived slot name is the snake_case form of the exported Go
identifier — an underscore is inserted at each word boundary
(`CreatedAt` ↦ `created_at`), and a consecutive run of uppercase letters
forms a single unit, so an acronym is not split letter-by-letter
(`HTTPServer` ↦ `http_server`, not `h_t_t_p_server`); further examples
exercise a boundary at the last upper of a trailing acronym (`UserID`) and
an interior acronym (`ParseURLPath`); the output never contains an
uppercase letter. -/
theorem toSnakeCase_spec :
    toSnakeCase "CreatedAt" = "created_at" ∧
    toSnakeCase "HTTPServer" = "http_server" ∧
    toSnakeCase "HTTPServer" ≠ "h_t_t_p_server" ∧
    toSnakeCase "Name" = "name" ∧
    toSnakeCase "UserID" = "user_id" ∧
    toSnakeCase "ParseURLPath" = "parse_url_path" ∧
    (∀ (s : String), ∀ c ∈ (toSnakeCase s).data, c.isUpper = false) := by
  refine ⟨by decide, by decide, by decide, by decide, by decide, by decide, ?_⟩
  intro s c hc
  exact toSnakeCase_foldl_no_upper s.data _ [] (by simp) c hc

/-! ## Model of Go types and values for the field-descriptor builder

Named struct types are referenced by name; their field declarations live in
a type environment (`TypeEnv`), so cyclic type graphs are representable.
Values are finite trees: a pointer carries an optional pointee (none = nil),
an interface carries an optional dynamic value (none = nil interface). -/

/-- Kinds of non-struct, non-func, non-interface Go field types, with the
distinctions `celTypeForField` makes. -/
inductive PrimKind where
  | strP | intP | uintP | floatP | boolP | bytesP | strListP | sliceP | mapP | chanP
  deriving DecidableEq, Repr

/-- A Go type as the reflection walk observes it. -/
inductive GoTy where
  | primT (k : PrimKind)
  | timeT
  | funcT
  | ifaceT
  | structT (name : String)
  | ptrT (elem : GoTy)
  deriving DecidableEq, Repr

mutual
/-- A Go value as the reflection walk observes it, as a finite tree: this
represents exactly the acyclic values.  Values with pointer cycles are
modelled separately by the heap-indexed `HVal` below. -/
inductive GoVal where
  | primV (k : PrimKind) (isNil : Bool) (payload : Nat)
  | timeV (isZero : Bool)
  | funcV (isNil : Bool)
  | ifaceV (inner : Option GoVal)
  | structV (tyName : String) (fields : GoFields)
  | ptrV (elemTy : GoTy) (pointee : Option GoVal)

/-- The field list of a struct value: Go field name, `Anonymous` flag,
declared field type, and current value. -/
inductive GoFields where
  | nilF
  | consF (fname : String) (anonymous : Bool) (declTy : GoTy) (fval : GoVal)
      (rest : GoFields)
end

/-- Field declarations of a named struct type (shape only, no values). -/
structure FieldDecl where
  fname : String
  anonymous : Bool
  declTy : GoTy
  deriving DecidableEq, Repr

/-- The environment of named struct types (model of the Go type graph;
may be cyclic through `ptrT (structT n)` or even `structT n` edges). -/
abbrev TypeEnv := List (String × List FieldDecl)

/-- The dynamic type of a value (`reflect.Value.Type()` /
`reflect.TypeOf`). -/
def typeOfVal : GoVal → GoTy
  | .primV k _ _ => .primT k
  | .timeV _ => .timeT
  | .funcV _ => .funcT
  | .ifaceV _ => .ifaceT
  | .structV n _ => .structT n
  | .ptrV t _ => .ptrT t

/-- Strip every pointer indirection from a type (the
`for t.Kind() == reflect.Ptr { t = t.Elem() }` loops of the source). -/
def stripPtrTy : GoTy → GoTy
  | .ptrT e => stripPtrTy e
  | .primT k => .primT k
  | .timeT => .timeT
  | .funcT => .funcT
  | .ifaceT => .ifaceT
  | .structT n => .structT n

/-- Rendering of non-struct type names (`reflect.Type.String()`), only used
to build registry keys; the exact spellings are irrelevant to the claims. -/
def primTyName : PrimKind → String
  | .strP => "string"
  | .intP => "int"
  | .uintP => "uint"
  | .floatP => "float64"
  | .boolP => "bool"
  | .bytesP => "[]uint8"
  | .strListP => "[]string"
  | .sliceP => "[]T"
  | .mapP => "map[K]V"
  | .chanP => "chan T"

/-- Model of `typeNameOf` (src/object.go lines 47–55): strip pointers, then
the (package-qualified) name. -/
def typeNameOfTy : GoTy → String
  | .ptrT e => typeNameOfTy e
  | .primT k => primTyName k
  | .timeT => "time.Time"
  | .funcT => "func()"
  | .ifaceT => "any"
  | .structT n => n

/-- `reflect.Type.String()` analogue keeping pointer stars (used for
adapter keys and the `%T`-style wrapper type name). -/
def goTyStr : GoTy → String
  | .ptrT e => "*" ++ goTyStr e
  | .primT k => primTyName k
  | .timeT => "time.Time"
  | .funcT => "func()"
  | .ifaceT => "any"
  | .structT n => n

/-- Model of `wrapperTypeNameFor` (src/object.go lines 670–675). -/
def wrapperTypeNameFor (rt : GoTy) : String :=
  "*xcel.Object[*" ++ typeNameOfTy rt ++ "]"

/-- Whether a Go field identifier is exported (`StructField.IsExported`):
first character uppercase. -/
def isExportedName (s : String) : Bool :=
  match s.data with
  | [] => false
  | c :: _ => c.isUpper

/-- CEL types, to the granularity `celTypeForField` distinguishes. -/
inductive CelTy where
  | stringT | intT | uintT | doubleT | boolT | bytesT | listStringT | timestampT
  | objectT (name : String)
  deriving DecidableEq, Repr

/-- `types.Type.TypeName()` for the modelled CEL types. -/
def celTypeName : CelTy → String
  | .stringT => "string"
  | .intT => "int"
  | .uintT => "uint"
  | .doubleT => "double"
  | .boolT => "bool"
  | .bytesT => "bytes"
  | .listStringT => "list"
  | .timestampT => "google.protobuf.Timestamp"
  | .objectT n => n

/-- Model of `celTypeForField` (src/object.go lines 70–99): strip pointers;
`time.Time` is a timestamp; primitive scalars map to their CEL kinds;
`[]byte` and `[]string` are special-cased; everything else is an object
type named after the declared Go type. -/
def celTypeForField (sfTy : GoTy) : CelTy :=
  match stripPtrTy sfTy with
  | .timeT => .timestampT
  | .primT .strP => .stringT
  | .primT .intP => .intT
  | .primT .uintP => .uintT
  | .primT .floatP => .doubleT
  | .primT .boolP => .boolT
  | .primT .bytesP => .bytesT
  | .primT .strListP => .listStringT
  | _ => .objectT (typeNameOfTy sfTy)

/-- A field descriptor (`types.FieldType`), with the data its closures
capture: the reflection path (`parts`), the declared Go type captured by
the primitive-leaf closures, or the nested wrapper type name captured by
the nested-object closures, plus the declared CEL type. -/
inductive FieldDesc where
  | primD (parts : List String) (sfTy : GoTy) (celTy : CelTy)
  | nestedD (parts : List String) (typeName : String) (celTy : CelTy)
  deriving DecidableEq, Repr

/-- The field-descriptor map of one struct type
(Go: `map[string]*types.FieldType`). -/
abbrev FMap := List (String × FieldDesc)

mutual
/-- Model of `reflect.DeepEqual` restricted to the modelled values:
equality requires identical dynamic types; pointers compare pointees;
interfaces compare dynamic values; function values are equal only when
both are nil. -/
def deepEqual : GoVal → GoVal → Bool
  | .primV k n p, .primV k' n' p' => k == k' && n == n' && p == p'
  | .timeV z, .timeV z' => z == z'
  | .funcV n, .funcV n' => n && n'
  | .ifaceV none, .ifaceV none => true
  | .ifaceV (some a), .ifaceV (some b) => deepEqual a b
  | .structV n fs, .structV n' fs' => n == n' && deepEqualFields fs fs'
  | .ptrV t none, .ptrV t' none => t == t'
  | .ptrV t (some a), .ptrV t' (some b) => t == t' && deepEqual a b
  | _, _ => false

/-- `reflect.DeepEqual` on struct field lists. -/
def deepEqualFields : GoFields → GoFields → Bool
  | .nilF, .nilF => true
  | .consF n a ty v r, .consF n' a' ty' v' r' =>
      n == n' && a == a' && ty == ty' && deepEqual v v' && deepEqualFields r r'
  | _, _ => false
end

/-! ## The field-descriptor builder (src/object.go lines 309–616)

`processImmediateFields` iterates the immediate fields of a struct value,
panicking (here: `Except.error`) on a primitive-leaf name collision;
`processPromotedFields` promotes leaf fields of anonymous embedded structs,
silently keeping the first writer on collision.  The Go code carries the
reflection path as a dotted string and re-splits it; Go identifiers contain
no dots, so the model carries the split path (`parts`) directly. -/

/-- Strip a single pointer indirection from a type (the non-looping
`if underlying.Kind() == reflect.Ptr { underlying = underlying.Elem() }`
of the source). -/
def stripOnePtrTy : GoTy → GoTy
  | .ptrT e => e
  | t => t

/-- `fieldValue.Kind() == reflect.Struct || (fieldValue.Kind() ==
reflect.Ptr && fieldValue.Elem().Kind() == reflect.Struct)`. -/
def isStructLikeVal : GoVal → Bool
  | .structV _ _ => true
  | .ptrV _ (some (.structV _ _)) => true
  | _ => false

/-- `fieldValue.Kind() == reflect.Func`. -/
def isFuncVal : GoVal → Bool
  | .funcV _ => true
  | _ => false

mutual
/-- Model of `processImmediateFields` (src/object.go lines 348–484); the
collision panic at line 452 is `Except.error`. -/
def processImmediateFields (fields : FMap) (v : GoVal) : Except String FMap :=
  match v with
  | .ptrV _ (some (.structV n fs)) => piFields n fields fs
  | .structV n fs => piFields n fields fs
  | _ => .ok fields

/-- The field loop of `processImmediateFields`: skips unexported and func
fields, resolves one level of interface indirection (skipping nil
interfaces); struct-like fields (except `time.Time`) become nested-object
descriptors (guarded, with promotion when embedded); other fields become
primitive-leaf descriptors, panicking on a name collision.  The interface
case repeats the per-field body with the resolved dynamic value and type. -/
def piFields (rootName : String) (fields : FMap) (fs : GoFields) :
    Except String FMap :=
  match fs with
  | .nilF => .ok fields
  | .consF fname anon declTy fval rest =>
      if isExportedName fname = false then piFields rootName fields rest
      else if isFuncVal fval = true then piFields rootName fields rest
      else
        match declTy, fval with
        | .ifaceT, .ifaceV none => piFields rootName fields rest
        | .ifaceT, .ifaceV (some w) =>
            let underlying := stripOnePtrTy (typeOfVal w)
            if isStructLikeVal w = true ∧ underlying ≠ GoTy.timeT then
              let nestedFieldName := toSnakeCase fname
              let nestedTypeName := wrapperTypeNameFor underlying
              let fields1 :=
                if alFind fields nestedFieldName = none then
                  alInsert fields nestedFieldName
                    (.nestedD [fname] nestedTypeName (.objectT nestedTypeName))
                else fields
              let fields2 :=
                if anon = true then processPromotedFields fields1 w [fname] true
                else fields1
              piFields rootName fields2 rest
            else
              let name := toSnakeCase fname
              match alFind fields name with
              | some _ =>
                  .error ("xcel: field name collision for CEL name " ++ name
                    ++ " on " ++ rootName ++ " (Go field: " ++ fname ++ ")")
              | none =>
                  piFields rootName
                    (alInsert fields name
                      (.primD [fname] GoTy.ifaceT (celTypeForField GoTy.ifaceT)))
                    rest
        | dt, fv2 =>
            let underlying := stripOnePtrTy dt
            if isStructLikeVal fv2 = true ∧ underlying ≠ GoTy.timeT then
              let nestedFieldName := toSnakeCase fname
              let nestedTypeName := wrapperTypeNameFor underlying
              let fields1 :=
                if alFind fields nestedFieldName = none then
                  alInsert fields nestedFieldName
                    (.nestedD [fname] nestedTypeName (.objectT nestedTypeName))
                else fields
              let fields2 :=
                if anon = true then processPromotedFields fields1 fv2 [fname] true
                else fields1
              piFields rootName fields2 rest
            else
              let name := toSnakeCase fname
              match alFind fields name with
              | some _ =>
                  .error ("xcel: field name collision for CEL name " ++ name
                    ++ " on " ++ rootName ++ " (Go field: " ++ fname ++ ")")
              | none =>
                  piFields rootName
                    (alInsert fields name
                      (.primD [fname] dt (celTypeForField dt)))
                    rest
termination_by structural fs

/-- Model of `processPromotedFields` (src/object.go lines 490–616); the
trailing `anonymous` parameter exists in the source but is never read. -/
def processPromotedFields (fields : FMap) (v : GoVal) (pfxParts : List String)
    (_anonParam : Bool) : FMap :=
  match v with
  | .ptrV _ (some (.structV _ fs)) => ppFields fields fs pfxParts
  | .structV _ fs => ppFields fields fs pfxParts
  | _ => fields
termination_by structural v

/-- The field loop of `processPromotedFields`: struct-like fields become
guarded nested descriptors (recursing only through anonymous embeddings),
func fields are skipped, and primitive leaves are inserted first-writer-wins
(collision falls through silently, src/object.go lines 581–585). -/
def ppFields (fields : FMap) (fs : GoFields) (pfxParts : List String) : FMap :=
  match fs with
  | .nilF => fields
  | .consF fname anon declTy fval rest =>
      if isExportedName fname = false then ppFields fields rest pfxParts
      else
        let parts := pfxParts ++ [fname]
        let name := toSnakeCase fname
        let underlying := stripOnePtrTy declTy
        if isStructLikeVal fval = true ∧ underlying ≠ GoTy.timeT then
          let nestedFieldName := toSnakeCase fname
          let nestedTypeName := wrapperTypeNameFor underlying
          let fields1 :=
            if alFind fields nestedFieldName = none then
              alInsert fields nestedFieldName
                (.nestedD parts nestedTypeName (.objectT nestedTypeName))
            else fields
          let fields2 :=
            if anon = true then processPromotedFields fields1 fval parts true
            else fields1
          ppFields fields2 rest pfxParts
        else if isFuncVal fval = true then ppFields fields rest pfxParts
        else
          match alFind fields name with
          | some _ => ppFields fields rest pfxParts
          | none =>
              ppFields
                (alInsert fields name
                  (.primD parts declTy (celTypeForField declTy)))
                rest pfxParts
termination_by structural fs
end

/-- Model of `newFieldsFromRaw` (src/object.go lines 315–323). -/
def newFieldsFromRaw (raw : GoVal) : Except String FMap :=
  match raw with
  | .ptrV _ (some p) => processImmediateFields [] p
  | v => processImmediateFields [] v

/-! ## Heap-indexed values: cyclic Go data

`GoVal` is a finite inductive tree, so it represents only acyclic Go
values.  Go pointers, however, can form cycles (`type A struct { *A }`
with `a.A = &a`), and the descriptor builder recurses on the *live* value
through anonymous embeddings with no visited set (src/object.go lines 440
and 569).  To state what the builder does on such values, `HVal` replaces
tree pointees by heap addresses: a value is read relative to a `Heap`, and
a cyclic value is a heap node that (transitively) points back at itself.
The builder functions are re-translated from the same source over this
representation, step-indexed by `fuel`: every call consumes one unit, and
`none` means the computation did not finish within `fuel` call steps, so a
run that returns `none` at every fuel diverges. -/

mutual
/-- A Go value with pointer pointees as heap addresses, so that pointer
cycles are representable. -/
inductive HVal where
  | hprimV (k : PrimKind) (isNil : Bool) (payload : Nat)
  | htimeV (isZero : Bool)
  | hfuncV (isNil : Bool)
  | hifaceV (inner : Option HVal)
  | hstructV (tyName : String) (fields : HFields)
  | hptrV (elemTy : GoTy) (addr : Option Nat)

/-- The field list of a heap-indexed struct value. -/
inductive HFields where
  | hnilF
  | hconsF (fname : String) (anonymous : Bool) (declTy : GoTy) (fval : HVal)
      (rest : HFields)
end

/-- The heap: a finite map from addresses to stored values. -/
abbrev Heap := List (Nat × HVal)

/-- Read an address from the heap (`reflect.Value.Elem()` on a non-nil
pointer). -/
def heapGet (h : Heap) (a : Nat) : Option HVal :=
  match h with
  | [] => none
  | (k, v) :: rest => if k = a then some v else heapGet rest a

/-- `reflect.Value.Type()` on a heap-indexed value. -/
def typeOfValH : HVal → GoTy
  | .hprimV k _ _ => .primT k
  | .htimeV _ => .timeT
  | .hfuncV _ => .funcT
  | .hifaceV _ => .ifaceT
  | .hstructV n _ => .structT n
  | .hptrV t _ => .ptrT t

/-- `fieldValue.Kind() == reflect.Struct || (fieldValue.Kind() ==
reflect.Ptr && fieldValue.Elem().Kind() == reflect.Struct)`, with the
pointee read from the heap. -/
def isStructLikeValH (heap : Heap) : HVal → Bool
  | .hstructV _ _ => true
  | .hptrV _ (some a) =>
      match heapGet heap a with
      | some (.hstructV _ _) => true
      | _ => false
  | _ => false

/-- `fieldValue.Kind() == reflect.Func` on a heap-indexed value. -/
def isFuncValH : HVal → Bool
  | .hfuncV _ => true
  | _ => false

mutual
/-- `processImmediateFields` (src/object.go lines 348–484) over the heap;
same structure as `processImmediateFields`, pointer deref via `heapGet`. -/
def processImmediateFieldsH (fuel : Nat) (heap : Heap) (fields : FMap)
    (v : HVal) : Option (Except String FMap) :=
  match fuel with
  | 0 => none
  | fuel + 1 =>
      match v with
      | .hptrV _ (some a) =>
          match heapGet heap a with
          | some (.hstructV n fs) => piFieldsH fuel heap n fields fs
          | _ => some (.ok fields)
      | .hstructV n fs => piFieldsH fuel heap n fields fs
      | _ => some (.ok fields)

/-- The field loop of `processImmediateFields` over the heap; mirrors
`piFields` clause for clause. -/
def piFieldsH (fuel : Nat) (heap : Heap) (rootName : String) (fields : FMap)
    (fs : HFields) : Option (Except String FMap) :=
  match fuel with
  | 0 => none
  | fuel + 1 =>
      match fs with
      | .hnilF => some (.ok fields)
      | .hconsF fname anon declTy fval rest =>
          if isExportedName fname = false then
            piFieldsH fuel heap rootName fields rest
          else if isFuncValH fval = true then
            piFieldsH fuel heap rootName fields rest
          else
            match declTy, fval with
            | .ifaceT, .hifaceV none => piFieldsH fuel heap rootName fields rest
            | .ifaceT, .hifaceV (some w) =>
                let underlying := stripOnePtrTy (typeOfValH w)
                if isStructLikeValH heap w = true ∧ underlying ≠ GoTy.timeT then
                  let nestedFieldName := toSnakeCase fname
                  let nestedTypeName := wrapperTypeNameFor underlying
                  let fields1 :=
                    if alFind fields nestedFieldName = none then
                      alInsert fields nestedFieldName
                        (.nestedD [fname] nestedTypeName
                          (.objectT nestedTypeName))
                    else fields
                  match (if anon = true then
                           processPromotedFieldsH fuel heap fields1 w [fname]
                             true
                         else some fields1) with
                  | none => none
                  | some fields2 => piFieldsH fuel heap rootName fields2 rest
                else
                  let name := toSnakeCase fname
                  match alFind fields name with
                  | some _ =>
                      some (.error
                        ("xcel: field name collision for CEL name " ++ name
                          ++ " on " ++ rootName ++ " (Go field: " ++ fname
                          ++ ")"))
                  | none =>
                      piFieldsH fuel heap rootName
                        (alInsert fields name
                          (.primD [fname] GoTy.ifaceT
                            (celTypeForField GoTy.ifaceT)))
                        rest
            | dt, fv2 =>
                let underlying := stripOnePtrTy dt
                if isStructLikeValH heap fv2 = true ∧ underlying ≠ GoTy.timeT
                then
                  let nestedFieldName := toSnakeCase fname
                  let nestedTypeName := wrapperTypeNameFor underlying
                  let fields1 :=
                    if alFind fields nestedFieldName = none then
                      alInsert fields nestedFieldName
                        (.nestedD [fname] nestedTypeName
                          (.objectT nestedTypeName))
                    else fields
                  match (if anon = true then
                           processPromotedFieldsH fuel heap fields1 fv2 [fname]
                             true
                         else some fields1) with
                  | none => none
                  | some fields2 => piFieldsH fuel heap rootName fields2 rest
                else
                  let name := toSnakeCase fname
                  match alFind fields name with
                  | some _ =>
                      some (.error
                        ("xcel: field name collision for CEL name " ++ name
                          ++ " on " ++ rootName ++ " (Go field: " ++ fname
                          ++ ")"))
                  | none =>
                      piFieldsH fuel heap rootName
                        (alInsert fields name
                          (.primD [fname] dt (celTypeForField dt)))
                        rest
termination_by structural fuel

/-- `processPromotedFields` (src/object.go lines 490–616) over the heap;
the trailing `anonymous` parameter exists in the source but is never
read. -/
def processPromotedFieldsH (fuel : Nat) (heap : Heap) (fields : FMap)
    (v : HVal) (pfxParts : List String) (_anonParam : Bool) : Option FMap :=
  match fuel with
  | 0 => none
  | fuel + 1 =>
      match v with
      | .hptrV _ (some a) =>
          match heapGet heap a with
          | some (.hstructV _ fs) => ppFieldsH fuel heap fields fs pfxParts
          | _ => some fields
      | .hstructV _ fs => ppFieldsH fuel heap fields fs pfxParts
      | _ => some fields
termination_by structural fuel

/-- The field loop of `processPromotedFields` over the heap; mirrors
`ppFields` clause for clause, recursing on the live field value through
anonymous embeddings (src/object.go line 569) with no visited set. -/
def ppFieldsH (fuel : Nat) (heap : Heap) (fields : FMap) (fs : HFields)
    (pfxParts : List String) : Option FMap :=
  match fuel with
  | 0 => none
  | fuel + 1 =>
      match fs with
      | .hnilF => some fields
      | .hconsF fname anon declTy fval rest =>
          if isExportedName fname = false then
            ppFieldsH fuel heap fields rest pfxParts
          else
            let parts := pfxParts ++ [fname]
            let name := toSnakeCase fname
            let underlying := stripOnePtrTy declTy
            if isStructLikeValH heap fval = true ∧ underlying ≠ GoTy.timeT then
              let nestedFieldName := toSnakeCase fname
              let nestedTypeName := wrapperTypeNameFor underlying
              let fields1 :=
                if alFind fields nestedFieldName = none then
                  alInsert fields nestedFieldName
                    (.nestedD parts nestedTypeName (.objectT nestedTypeName))
                else fields
              match (if anon = true then
                       processPromotedFieldsH fuel heap fields1 fval parts true
                     else some fields1) with
              | none => none
              | some fields2 => ppFieldsH fuel heap fields2 rest pfxParts
            else if isFuncValH fval = true then
              ppFieldsH fuel heap fields rest pfxParts
            else
              match alFind fields name with
              | some _ => ppFieldsH fuel heap fields rest pfxParts
              | none =>
                  ppFieldsH fuel heap
                    (alInsert fields name
                      (.primD parts declTy (celTypeForField declTy)))
                    rest pfxParts
termination_by structural fuel
end

/-- `newFieldsFromRaw` (src/object.go lines 315–323) over the heap. -/
def newFieldsFromRawH (fuel : Nat) (heap : Heap) (raw : HVal) :
    Option (Except String FMap) :=
  match raw with
  | .hptrV t (some a) =>
      match heapGet heap a with
      | some p => processImmediateFieldsH fuel heap [] p
      | none => processImmediateFieldsH fuel heap [] (.hptrV t (some a))
  | v => processImmediateFieldsH fuel heap [] v

/-- The cyclic counterexample value: `type A struct { *A }` with
`a.A = &a` — a single anonymous pointer-to-own-type embedding pointing
back at the enclosing value.  The heap stores the struct at address 0; its
one field is a pointer to address 0. -/
def cycFields : HFields :=
  .hconsF "A" true (GoTy.ptrT (GoTy.structT "main.A"))
    (HVal.hptrV (GoTy.structT "main.A") (some 0)) .hnilF

/-- The one-cell heap holding the self-referential struct value. -/
def cycHeap : Heap := [(0, HVal.hstructV "main.A" cycFields)]

/-- The registered raw value `&a`. -/
def cycVal : HVal := HVal.hptrV (GoTy.structT "main.A") (some 0)

/-- The acyclic variant of the same type: `a.A = nil`. -/
def acycFields : HFields :=
  .hconsF "A" true (GoTy.ptrT (GoTy.structT "main.A"))
    (HVal.hptrV (GoTy.structT "main.A") none) .hnilF

/-- The heap holding the acyclic variant at address 0. -/
def acycHeap : Heap := [(0, HVal.hstructV "main.A" acycFields)]

/-! ## Wrappers, registries and the adapter
(src/object.go lines 103–239, src/type_provider.go, src/type_adapter.go) -/

/-- Model of `Object[T]` (src/object.go lines 105–108): the static type
parameter `T`, the wrapped raw value, and the optional precomputed CEL
type. -/
structure ObjWrapper where
  tyParam : GoTy
  raw : GoVal
  celType : Option CelTy

/-- Model of `dynObject` (src/object.go lines 159–163). -/
structure DynWrapper where
  raw : Option GoVal
  typeName : String
  celType : Option CelTy

mutual
/-- A CEL `ref.Val` as far as the modelled operations distinguish them:
a static wrapper, a dynamic wrapper, a CEL bool, an error value, the crash
of a failed `value.(T)` assertion, or the opaque result of
`types.DefaultTypeAdapter.NativeToValue`. -/
inductive RefVal where
  | objV (w : ObjWrapper)
  | dynV (d : DynWrapper)
  | boolV (b : Bool)
  | errV (msg : String)
  | castPanic
  | defaultConv (v : AnyVal)

/-- A Go `any` as handed to `NativeToValue`: either a bare native value or
a value that is already a CEL `ref.Val`. -/
inductive AnyVal where
  | goV (v : GoVal)
  | refV (r : RefVal)
end

/-- `wrapperTypeName[T]()` (src/object.go lines 58–60): the `%T` rendering
of `(*Object[T])(nil)`. -/
def wrapperTypeName (t : GoTy) : String :=
  "*xcel.Object[" ++ goTyStr t ++ "]"

/-- The `reflect.Type` of an `*Object[T]` value. -/
def wrapperReflectTy (t : GoTy) : GoTy :=
  .ptrT (.structT ("xcel.Object[" ++ goTyStr t ++ "]"))

/-- `reflect.TypeOf` on a Go `any` (wrappers are themselves Go values with
their own pointer-to-struct types). -/
def reflectTypeOfAny : AnyVal → GoTy
  | .goV v => typeOfVal v
  | .refV (.objV w) => wrapperReflectTy w.tyParam
  | .refV (.dynV _) => .ptrT (.structT "xcel.dynObject")
  | .refV (.boolV _) => .structT "types.Bool"
  | .refV (.errV _) => .ptrT (.structT "types.Err")
  | .refV .castPanic => .ptrT (.structT "types.Err")
  | .refV (.defaultConv _) => .structT "types.Default"

/-- The type adapter (src/type_adapter.go line 12): a map from
`reflect.Type` to conversion function. -/
abbrev TypeAdapter := List (GoTy × (AnyVal → RefVal))

/-- Map lookup keyed by `reflect.Type`. -/
def taFind (l : TypeAdapter) (k : GoTy) : Option (AnyVal → RefVal) :=
  match l with
  | [] => none
  | (k', v) :: rest => if k' = k then some v else taFind rest k

/-- Map assignment keyed by `reflect.Type` (overwrite). -/
def taInsert (l : TypeAdapter) (k : GoTy) (v : AnyVal → RefVal) : TypeAdapter :=
  match l with
  | [] => [(k, v)]
  | (k', v') :: rest =>
      if k' = k then (k, v) :: rest else (k', v') :: taInsert rest k v

/-- Model of `TypeAdapter.NativeToValue` (src/type_adapter.go lines 14–21).
The Go loop ranges over the map testing `reflect.TypeOf(value) == typ`;
map keys are unique, so at most one entry can match and the random
iteration order is immaterial: the loop is keyed lookup, with
`types.DefaultTypeAdapter` as fallback. -/
def NativeToValue (ta : TypeAdapter) (value : AnyVal) : RefVal :=
  match taFind ta (reflectTypeOfAny value) with
  | some fn => fn value
  | none => .defaultConv value

/-- Model of `TypeProvider` (src/type_provider.go lines 12–17). -/
structure TypeProvider where
  Idents : List (String × RefVal)
  Types : List (String × CelTy)
  Structs : List (String × FMap)
  StructFieldTypes : List (String × FMap)

/-- Model of `NewTypeProvider` (src/type_provider.go lines 19–26). -/
def NewTypeProvider : TypeProvider := ⟨[], [], [], []⟩

/-- Model of `TypeProvider.FindIdent`. -/
def FindIdent (tp : TypeProvider) (n : String) : Option RefVal :=
  alFind tp.Idents n

/-- Model of `TypeProvider.FindStructType` (src/type_provider.go 39–44). -/
def FindStructType (tp : TypeProvider) (n : String) : Option CelTy :=
  alFind tp.Types n

/-- Model of `TypeProvider.FindStructFieldNames` (src/type_provider.go
46–55): the keys of the registered descriptor map (Go yields them in
arbitrary order; the model lists them in insertion order). -/
def FindStructFieldNames (tp : TypeProvider) (n : String) :
    Option (List String) :=
  (alFind tp.Structs n).map alKeys

/-- Model of `TypeProvider.FindStructFieldType` (src/type_provider.go
57–64). -/
def FindStructFieldType (tp : TypeProvider) (msg f : String) :
    Option FieldDesc :=
  (alFind tp.StructFieldTypes msg).bind (fun m => alFind m f)

/-- Model of `RegisterType` (src/type_provider.go lines 81–83). -/
def RegisterType (tp : TypeProvider) (t : CelTy) : TypeProvider :=
  { tp with Types := alInsert tp.Types (celTypeName t) t }

/-- Model of `registerStructFieldType` (src/type_provider.go 90–92). -/
def registerStructFieldType (tp : TypeProvider) (name : String)
    (fields : FMap) : TypeProvider :=
  { tp with StructFieldTypes := alInsert tp.StructFieldTypes name fields }

/-- Model of `RegisterStructType` (src/type_provider.go lines 85–88):
unconditional map assignment into `Structs`, then the same into
`StructFieldTypes`. -/
def RegisterStructType (tp : TypeProvider) (name : String) (fields : FMap) :
    TypeProvider :=
  registerStructFieldType
    { tp with Structs := alInsert tp.Structs name fields } name fields

/-- Model of `NewObject` (src/object.go lines 111–116). -/
def NewObject (tyParam : GoTy) (val : GoVal) : ObjWrapper × CelTy :=
  let t := CelTy.objectT (wrapperTypeName tyParam)
  (⟨tyParam, val, some t⟩, t)

/-- `Object[T].Type()` (src/object.go lines 143–148). -/
def objType (o : ObjWrapper) : CelTy :=
  o.celType.getD (.objectT (wrapperTypeName o.tyParam))

/-- `dynObject.Type()` (src/object.go lines 186–191). -/
def dynType (d : DynWrapper) : CelTy :=
  d.celType.getD (.objectT d.typeName)

/-- A type-conversion error, carrying the source and target type names the
`fmt.Errorf` message interpolates. -/
structure ConvErr where
  src : String
  tgt : String
  deriving DecidableEq, Repr

/-- Model of `Object[T].ConvertToNative` (src/object.go lines 119–124). -/
def convertToNative (o : ObjWrapper) (typeDesc : GoTy) : Except ConvErr GoVal :=
  if typeDesc = typeOfVal o.raw then .ok o.raw
  else .error ⟨celTypeName (objType o), goTyStr typeDesc⟩

/-- Model of `dynObject.ConvertToNative` (src/object.go lines 165–170). -/
def dynConvertToNative (d : DynWrapper) (typeDesc : GoTy) :
    Except ConvErr GoVal :=
  match d.raw with
  | some r =>
      if typeDesc = typeOfVal r then .ok r
      else .error ⟨celTypeName (dynType d), goTyStr typeDesc⟩
  | none => .error ⟨celTypeName (dynType d), goTyStr typeDesc⟩

/-- Model of `Object[T].Equal` (src/object.go lines 135–140): the type
assertion `other.(*Object[T])` succeeds exactly for a static wrapper with
the same type parameter; then `reflect.DeepEqual` on the raw values. -/
def objEqual (o : ObjWrapper) (other : RefVal) : RefVal :=
  match other with
  | .objV w =>
      if w.tyParam = o.tyParam then .boolV (deepEqual o.raw w.raw)
      else .boolV false
  | _ => .boolV false

/-- `reflect.DeepEqual` through the `any`-typed `dynObject.Raw` fields. -/
def optDeepEqual : Option GoVal → Option GoVal → Bool
  | none, none => true
  | some a, some b => deepEqual a b
  | _, _ => false

/-- Model of `dynObject.Equal` (src/object.go lines 179–184). -/
def dynEqual (d : DynWrapper) (other : RefVal) : RefVal :=
  match other with
  | .dynV d' => .boolV (optDeepEqual d.raw d'.raw)
  | _ => .boolV false

/-- Model of `NewFields` (src/object.go lines 310–312). -/
def NewFields (o : ObjWrapper) : Except String FMap :=
  newFieldsFromRaw o.raw

/-! ## Zero values and nested-type registration
(src/object.go lines 195–307)

`registerNestedTypes` always recurses on `reflect.New(underlying)` — a
pointer to a freshly-created zero value.  `zeroValT` builds that zero value
from the type environment; pointer and interface fields of a zero value are
nil.  `zeroValT` is fuel-indexed only because an (un-Go-able) type
environment may nest structs by value cyclically; at fuel exhaustion it
truncates to a fieldless struct, which no environment describing real Go
types ever reaches, since Go structs cannot contain themselves by value. -/

/-- Build a `GoFields` list from plain tuples. -/
def mkGoFields : List (String × Bool × GoTy × GoVal) → GoFields
  | [] => .nilF
  | (n, a, t, v) :: r => .consF n a t v (mkGoFields r)

/-- The zero value of a type (`reflect.New(t).Elem()`): pointer and
interface fields of a zero value are nil; struct fields are zero values of
their own types (one unit of fuel per struct-nesting level; fuel
`env.length + 1` suffices for any environment describing real Go types,
since a Go struct cannot contain itself by value). -/
def zeroValT (fuel : Nat) (env : TypeEnv) (t : GoTy) : GoVal :=
  match t with
  | .primT k => .primV k true 0
  | .timeT => .timeV true
  | .funcT => .funcV true
  | .ifaceT => .ifaceV none
  | .ptrT e => .ptrV e none
  | .structT n =>
      match fuel with
      | 0 => .structV n .nilF
      | fuel' + 1 =>
          match alFind env n with
          | none => .structV n .nilF
          | some decls =>
              .structV n (mkGoFields (decls.map
                (fun d => (d.fname, d.anonymous, d.declTy,
                  zeroValT fuel' env d.declTy))))
termination_by structural fuel

/-- The field list of a struct value as a plain list (the Go loop ranges
over `typ.NumField()`; this is the same traversal). -/
def fieldsToList : GoFields → List (String × Bool × GoTy × GoVal)
  | .nilF => []
  | .consF n a t v r => (n, a, t, v) :: fieldsToList r

/-- Model of `registerNestedTypes` (src/object.go lines 244–307),
fuel-indexed: `none` means the fuel ran out (the termination theorem
`nested_registration_cycle_safe` shows fuel `env.length + 3` always
suffices), `some (.error e)` models a collision panic raised while building
a nested descriptor set, and `some (.ok (tp, visited))` returns the mutated
registries and visited set (both are mutated through references in Go, so
both are threaded).  One unit of fuel is spent per entry; the field loop is
a fold.  Per field the source: skips unexported fields, resolves one level
of interface indirection (skipping nil interfaces), and for a struct-like
field (other than `time.Time`) registers its underlying type — under the
wrapper type name and the bare Go type name, each only if not already
present — with a shape-only descriptor set built from a zero value, then
recurses on a pointer to that zero value. -/
def registerNestedTypesFuel (fuel : Nat) (env : TypeEnv) (tp : TypeProvider)
    (raw : GoVal) (visited : List GoTy) :
    Option (Except String (TypeProvider × List GoTy)) :=
  match fuel with
  | 0 => none
  | fuel' + 1 =>
      let vt := stripPtrTy (typeOfVal raw)
      if vt ∈ visited then some (.ok (tp, visited))
      else
        let visited1 := vt :: visited
        let flds :=
          match raw with
          | .ptrV _ (some (.structV _ fs0)) => fieldsToList fs0
          | .structV _ fs0 => fieldsToList fs0
          | _ => []
        flds.foldl
          (fun acc fld =>
            match acc with
            | some (.ok (tpA, visA)) =>
                let fname := fld.1
                let declTy := fld.2.2.1
                let fval := fld.2.2.2
                if isExportedName fname = false then some (.ok (tpA, visA))
                else
                  let resolved :=
                    match declTy, fval with
                    | .ifaceT, .ifaceV none => none
                    | .ifaceT, .ifaceV (some w) => some (w, typeOfVal w)
                    | dt, fv2 => some (fv2, dt)
                  match resolved with
                  | none => some (.ok (tpA, visA))
                  | some (fieldValue, underlyingRaw) =>
                      let underlying := stripOnePtrTy underlyingRaw
                      if isStructLikeVal fieldValue = true ∧
                          underlying ≠ GoTy.timeT then
                        let tn := wrapperTypeNameFor underlying
                        let zeroPtr := GoVal.ptrV underlying
                          (some (zeroValT (env.length + 1) env underlying))
                        match newFieldsFromRaw zeroPtr with
                        | .error e => some (.error e)
                        | .ok nestedFields =>
                            let tp1 :=
                              if alFind tpA.Structs tn = none then
                                RegisterStructType
                                  (RegisterType tpA (.objectT tn)) tn
                                  nestedFields
                              else tpA
                            let altName := typeNameOfTy underlying
                            let tp2 :=
                              if alFind tp1.Structs altName = none then
                                RegisterStructType
                                  (RegisterType tp1 (.objectT altName))
                                  altName nestedFields
                              else tp1
                            registerNestedTypesFuel fuel' env tp2 zeroPtr visA
                      else some (.ok (tpA, visA))
            | other => other)
          (some (.ok (tp, visited1)))
termination_by structural fuel

/-- `for k, v := range fields { auto[k] = v }` of `RegisterObject`
(src/object.go lines 212–214): the caller-supplied overlay applied on top
of the auto-derived descriptors.  Go map iteration order is arbitrary, but
the overlay map's keys are unique, so per-key assignment commutes. -/
def overlayFMap (auto manual : FMap) : FMap :=
  manual.foldl (fun acc kv => alInsert acc kv.1 kv.2) auto

/-- The adapter entry `RegisterObject` installs for the wrapper type itself
(src/object.go lines 218–224): pass through values that are already
`ref.Val`, else wrap the bare native value (the `value.(T)` assertion
crashes on a foreign type). -/
def wrapperAdapterFn (tyParam : GoTy) : AnyVal → RefVal :=
  fun value =>
    match value with
    | .refV rv => rv
    | .goV g =>
        if typeOfVal g = tyParam then .objV (NewObject tyParam g).1
        else .castPanic

/-- Model of `RegisterObject` (src/object.go lines 199–239): install the
two adapter entries, build the descriptor set (auto-derivation first, then
the caller's overlay), register the type and descriptor set under the CEL
type name and the bare Go type name, then register reachable nested struct
types. -/
def RegisterObject (env : TypeEnv) (ta : TypeAdapter) (tp : TypeProvider)
    (objt : ObjWrapper) (t : CelTy) (fields : Option FMap) :
    Option (Except String (TypeAdapter × TypeProvider)) :=
  let ta1 := taInsert ta (typeOfVal objt.raw) (fun _ => RefVal.objV objt)
  match NewFields objt with
  | .error e => some (.error e)
  | .ok auto =>
      let merged :=
        match fields with
        | none => auto
        | some fl => overlayFMap auto fl
      let ta2 := taInsert ta1 (wrapperReflectTy objt.tyParam)
        (wrapperAdapterFn objt.tyParam)
      let tp1 := RegisterType tp t
      let tp2 := RegisterStructType tp1 (celTypeName t) merged
      let altName := typeNameOfTy (stripPtrTy (typeOfVal objt.raw))
      let tp3 := RegisterType tp2 (.objectT altName)
      let tp4 := RegisterStructType tp3 altName merged
      match registerNestedTypesFuel (env.length + 3) env tp4 objt.raw [] with
      | none => none
      | some (.error e) => some (.error e)
      | some (.ok (tp5, _)) => some (.ok (ta2, tp5))

/-! ## Claim C7 — convert-to-native is exact-match-or-error -/

/-- C7: for both wrapper kinds, convert-to-native returns the held native
value exactly when the target type equals the held value's native type, and
otherwise fails with a type-conversion error carrying both the source type
name and the target type name; the held value is never returned for a
non-matching target (the `.ok` inversion conjuncts), and a dynamic wrapper
holding nil never succeeds. -/
theorem convert_to_native_exact :
    (∀ (o : ObjWrapper) (target : GoTy),
      (target = typeOfVal o.raw → convertToNative o target = .ok o.raw) ∧
      (target ≠ typeOfVal o.raw →
        convertToNative o target =
          .error ⟨celTypeName (objType o), goTyStr target⟩) ∧
      (∀ v, convertToNative o target = .ok v →
        v = o.raw ∧ target = typeOfVal o.raw)) ∧
    (∀ (d : DynWrapper) (target : GoTy),
      (∀ r, d.raw = some r → target = typeOfVal r →
        dynConvertToNative d target = .ok r) ∧
      (∀ r, d.raw = some r → target ≠ typeOfVal r →
        dynConvertToNative d target =
          .error ⟨celTypeName (dynType d), goTyStr target⟩) ∧
      (d.raw = none →
        dynConvertToNative d target =
          .error ⟨celTypeName (dynType d), goTyStr target⟩) ∧
      (∀ v, dynConvertToNative d target = .ok v →
        d.raw = some v ∧ target = typeOfVal v)) := by
  constructor
  · intro o target
    refine ⟨?_, ?_, ?_⟩
    · intro h
      simp [convertToNative, h]
    · intro h
      simp [convertToNative, h]
    · intro v hv
      by_cases h : target = typeOfVal o.raw
      · simp [convertToNative, h] at hv
        exact ⟨hv.symm, h⟩
      · simp [convertToNative, h] at hv
  · intro d target
    refine ⟨?_, ?_, ?_, ?_⟩
    · intro r hr h
      simp [dynConvertToNative, hr, h]
    · intro r hr h
      simp [dynConvertToNative, hr, h]
    · intro h
      simp [dynConvertToNative, h]
    · intro v hv
      cases hr : d.raw with
      | none => simp [dynConvertToNative, hr] at hv
      | some r =>
          by_cases h : target = typeOfVal r
          · simp [dynConvertToNative, hr, h] at hv
            subst hv
            exact ⟨rfl, h⟩
          · simp [dynConvertToNative, hr, h] at hv

/-- Witness for C7 at concrete inputs: a wrapper converts exactly to its own
native type and errors (naming both types) on any other target; a dynamic
wrapper behaves the same. -/
theorem convert_to_native_exact_witness :
    convertToNative ⟨.structT "main.P", .structV "main.P" .nilF, none⟩
        (.structT "main.P") = .ok (.structV "main.P" .nilF) ∧
    convertToNative ⟨.structT "main.P", .structV "main.P" .nilF, none⟩
        (.primT .intP) = .error ⟨"*xcel.Object[main.P]", "int"⟩ ∧
    dynConvertToNative ⟨some (.primV .intP false 3), "main.D", none⟩
        (.primT .strP) = .error ⟨"main.D", "string"⟩ := by
  refine ⟨?_, ?_, ?_⟩
  · exact (convert_to_native_exact.1 _ _).1 rfl
  · exact (convert_to_native_exact.1 _ _).2.1 (by decide)
  · exact (convert_to_native_exact.2 _ _).2.1 _ rfl (by decide)

/-! ## Claim C8 — wrapper equality -/

/-- C8: equality on a static wrapper is true exactly for another static
wrapper with the same type parameter and a deeply-equal raw value; equality
on a dynamic wrapper is true exactly for another dynamic wrapper with a
deeply-equal raw value; every cross-kind comparison (static vs dynamic, or
against any other host value) is `false`; and both operations always return
a CEL bool, never an error value. -/
theorem wrapper_equality_spec :
    (∀ (o w : ObjWrapper),
      objEqual o (.objV w) =
        .boolV (decide (w.tyParam = o.tyParam) && deepEqual o.raw w.raw)) ∧
    (∀ (o : ObjWrapper) (d : DynWrapper),
      objEqual o (.dynV d) = .boolV false) ∧
    (∀ (o : ObjWrapper) (r : RefVal),
      (∀ w, r ≠ .objV w) → objEqual o r = .boolV false) ∧
    (∀ (d d' : DynWrapper),
      dynEqual d (.dynV d') = .boolV (optDeepEqual d.raw d'.raw)) ∧
    (∀ (d : DynWrapper) (o : ObjWrapper),
      dynEqual d (.objV o) = .boolV false) ∧
    (∀ (d : DynWrapper) (r : RefVal),
      (∀ x, r ≠ .dynV x) → dynEqual d r = .boolV false) ∧
    (∀ (o : ObjWrapper) (r : RefVal), ∃ b, objEqual o r = .boolV b) ∧
    (∀ (d : DynWrapper) (r : RefVal), ∃ b, dynEqual d r = .boolV b) := by
  refine ⟨?_, ?_, ?_, ?_, ?_, ?_, ?_, ?_⟩
  · intro o w
    by_cases h : w.tyParam = o.tyParam
    · simp [objEqual, h]
    · simp [objEqual, h]
  · intro o d
    rfl
  · intro o r h
    cases r with
    | objV w => exact absurd rfl (h w)
    | dynV d => rfl
    | boolV b => rfl
    | errV m => rfl
    | castPanic => rfl
    | defaultConv v => rfl
  · intro d d'
    rfl
  · intro d o
    rfl
  · intro d r h
    cases r with
    | dynV x => exact absurd rfl (h x)
    | objV w => rfl
    | boolV b => rfl
    | errV m => rfl
    | castPanic => rfl
    | defaultConv v => rfl
  · intro o r
    cases r with
    | objV w =>
        by_cases h : w.tyParam = o.tyParam
        · exact ⟨deepEqual o.raw w.raw, by simp [objEqual, h]⟩
        · exact ⟨false, by simp [objEqual, h]⟩
    | dynV d => exact ⟨false, rfl⟩
    | boolV b => exact ⟨false, rfl⟩
    | errV m => exact ⟨false, rfl⟩
    | castPanic => exact ⟨false, rfl⟩
    | defaultConv v => exact ⟨false, rfl⟩
  · intro d r
    cases r with
    | dynV x => exact ⟨_, rfl⟩
    | objV w => exact ⟨false, rfl⟩
    | boolV b => exact ⟨false, rfl⟩
    | errV m => exact ⟨false, rfl⟩
    | castPanic => exact ⟨false, rfl⟩
    | defaultConv v => exact ⟨false, rfl⟩

/-- Witness for C8 at concrete inputs: same-kind equality with equal raws is
true, a differing type parameter or a cross-kind comparison is false. -/
theorem wrapper_equality_spec_witness :
    objEqual ⟨.structT "main.P", .primV .intP false 3, none⟩
        (.objV ⟨.structT "main.P", .primV .intP false 3, none⟩) = .boolV true ∧
    objEqual ⟨.structT "main.P", .primV .intP false 3, none⟩
        (.objV ⟨.structT "main.Q", .primV .intP false 3, none⟩) = .boolV false ∧
    objEqual ⟨.structT "main.P", .primV .intP false 3, none⟩
        (.dynV ⟨some (.primV .intP false 3), "main.P", none⟩) = .boolV false ∧
    dynEqual ⟨some (.primV .intP false 3), "main.P", none⟩
        (.dynV ⟨some (.primV .intP false 3), "main.Q", none⟩) = .boolV true ∧
    dynEqual ⟨some (.primV .intP false 3), "main.P", none⟩ (.boolV true) =
      .boolV false := by
  refine ⟨?_, ?_, ?_, ?_, ?_⟩
  · exact wrapper_equality_spec.1 _ _
  · exact wrapper_equality_spec.1 _ _
  · exact wrapper_equality_spec.2.1 _ _
  · exact wrapper_equality_spec.2.2.2.1 _ _
  · exact wrapper_equality_spec.2.2.2.2.2.1 _ _ (fun x h => by cases h)

/-! ## Claim C10 — field-name listing and per-field lookup agree -/

/-- C10: `RegisterStructType` writes the same descriptor map into the
name-listing map (`Structs`) and the per-field-lookup map
(`StructFieldTypes`); the two maps are equal on a fresh provider and stay
equal under every registration (`RegisterType` touches neither), and under
that invariant, for every registered type, per-field lookup succeeds exactly
for the listed field names and returns the descriptor from the listed set. -/
theorem provider_field_lookup_consistent :
    (NewTypeProvider.Structs = NewTypeProvider.StructFieldTypes) ∧
    (∀ (tp : TypeProvider) (n : String) (f : FMap),
      tp.Structs = tp.StructFieldTypes →
      (RegisterStructType tp n f).Structs =
        (RegisterStructType tp n f).StructFieldTypes) ∧
    (∀ (tp : TypeProvider) (t : CelTy),
      (RegisterType tp t).Structs = tp.Structs ∧
      (RegisterType tp t).StructFieldTypes = tp.StructFieldTypes) ∧
    (∀ (tp : TypeProvider), tp.Structs = tp.StructFieldTypes →
      ∀ (n : String) (m : FMap), alFind tp.Structs n = some m →
        FindStructFieldNames tp n = some (alKeys m) ∧
        ∀ fname : String,
          FindStructFieldType tp n fname = alFind m fname ∧
          ((FindStructFieldType tp n fname).isSome ↔ fname ∈ alKeys m)) := by
  refine ⟨rfl, ?_, ?_, ?_⟩
  · intro tp n f h
    simp [RegisterStructType, registerStructFieldType, h]
  · intro tp t
    exact ⟨rfl, rfl⟩
  · intro tp h n m hm
    constructor
    · simp [FindStructFieldNames, hm]
    · intro fname
      have hft : FindStructFieldType tp n fname = alFind m fname := by
        simp [FindStructFieldType, ← h, hm]
      refine ⟨hft, ?_⟩
      rw [hft]
      constructor
      · intro hs
        by_contra hmem
        rw [← alFind_eq_none_iff] at hmem
        rw [hmem] at hs
        cases hs
      · intro hmem
        cases hfm : alFind m fname with
        | none =>
            rw [alFind_eq_none_iff] at hfm
            exact absurd hmem hfm
        | some d => rfl

/-- Witness for C10 on a one-type, one-field provider. -/
theorem provider_field_lookup_consistent_witness :
    FindStructFieldNames
        (RegisterStructType NewTypeProvider "main.T"
          [("a", .primD ["A"] (.primT .strP) .stringT)]) "main.T" =
      some ["a"] ∧
    FindStructFieldType
        (RegisterStructType NewTypeProvider "main.T"
          [("a", .primD ["A"] (.primT .strP) .stringT)]) "main.T" "a" =
      some (.primD ["A"] (.primT .strP) .stringT) := by
  have h := provider_field_lookup_consistent.2.2.2
    (RegisterStructType NewTypeProvider "main.T"
      [("a", .primD ["A"] (.primT .strP) .stringT)])
    rfl "main.T" [("a", .primD ["A"] (.primT .strP) .stringT)] rfl
  exact ⟨h.1, (h.2 "a").1⟩

/-! ## Claim C3 — registry re-registration

`RegisterStructType` is an unconditional map assignment, so registering a
second descriptor set under an existing name overwrites the first: the
claimed first-registration-wins invariant fails for direct registration.
It does hold on the nested-type discovery path, where every registration is
guarded by a `Structs` presence check. -/

/-- A descriptor set used by the C3 counterexample. -/
def c3fields1 : FMap := [("a", .primD ["A"] (.primT .strP) .stringT)]

/-- A second, different descriptor set for the same type name. -/
def c3fields2 : FMap := []

/-- C3 counterexample: registering `c3fields2` under a name already
registered with `c3fields1` makes lookup return `c3fields2` — the second
registration wins, contradicting the claimed no-op/first-wins behavior. -/
theorem register_struct_type_second_wins :
    alFind ((RegisterStructType
        (RegisterStructType NewTypeProvider "main.T" c3fields1)
        "main.T" c3fields2).Structs) "main.T" = some c3fields2 ∧
    c3fields2 ≠ c3fields1 ∧
    alFind ((RegisterStructType
        (RegisterStructType NewTypeProvider "main.T" c3fields1)
        "main.T" c3fields2).Structs) "main.T" ≠ some c3fields1 := by
  refine ⟨rfl, by decide, by decide⟩

/-- In the nested-discovery walk every registration is guarded: a name
already present in `Structs` keeps its descriptor set.  (Preservation
through one guarded registration pair.) -/
theorem guarded_register_preserves (tp : TypeProvider) (key : String)
    (f : FMap) (ct : CelTy) (name : String) (m : FMap)
    (h : alFind tp.Structs name = some m) :
    alFind (if alFind tp.Structs key = none
            then RegisterStructType (RegisterType tp ct) key f
            else tp).Structs name = some m := by
  by_cases hk : alFind tp.Structs key = none
  · rw [if_pos hk]
    have hne : key ≠ name := by
      intro e
      rw [e, h] at hk
      cases hk
    show alFind (alInsert tp.Structs key f) name = some m
    rw [alFind_alInsert_ne _ _ _ _ hne]
    exact h
  · rw [if_neg hk]
    exact h

/-- Invariant transfer through a left fold. -/
theorem foldl_pres {α β : Type} {P : β → Prop} (f : β → α → β) :
    ∀ (l : List α) (init : β), P init → (∀ b a, P b → P (f b a)) →
      P (l.foldl f init) := by
  intro l
  induction l with
  | nil => intro init h _; exact h
  | cons a t ih => intro init h hs; exact ih (f init a) (hs init a h) hs

/-- Every write the nested-discovery walk performs to `Structs` is guarded
by a presence check, so an entry present before the walk is unchanged after
it, whatever the walk registers. -/
theorem rnf_preserves_structs (fuel : Nat) :
    ∀ (env : TypeEnv) (tp : TypeProvider) (raw : GoVal)
      (visited : List GoTy) (name : String) (m : FMap)
      (tp' : TypeProvider) (vis' : List GoTy),
      alFind tp.Structs name = some m →
      registerNestedTypesFuel fuel env tp raw visited = some (.ok (tp', vis')) →
      alFind tp'.Structs name = some m := by
  induction fuel with
  | zero =>
      intro env tp raw visited name m tp' vis' h1 h2
      simp [registerNestedTypesFuel] at h2
  | succ f ih =>
      intro env tp raw visited name m tp' vis' h1 h2
      rw [registerNestedTypesFuel.eq_def] at h2
      dsimp only at h2
      split at h2
      · simp only [Option.some.injEq, Except.ok.injEq, Prod.mk.injEq] at h2
        rw [← h2.1]
        exact h1
      · refine foldl_pres (P := fun acc => ∀ t v,
            acc = some (Except.ok (t, v)) → alFind t.Structs name = some m)
          _ _ _ ?_ ?_ tp' vis' h2
        · intro t v heq
          simp only [Option.some.injEq, Except.ok.injEq, Prod.mk.injEq] at heq
          rw [← heq.1]
          exact h1
        · intro b a hb
          intro t v heq
          match b with
          | none => simp at heq
          | some (.error e) => simp at heq
          | some (.ok (tpA, visA)) =>
              have hA : alFind tpA.Structs name = some m := hb _ _ rfl
              dsimp only at heq
              split at heq
              · simp only [Option.some.injEq, Except.ok.injEq,
                  Prod.mk.injEq] at heq
                rw [← heq.1]
                exact hA
              · split at heq
                · simp only [Option.some.injEq, Except.ok.injEq,
                    Prod.mk.injEq] at heq
                  rw [← heq.1]
                  exact hA
                · split at heq
                  · split at heq
                    · simp at heq
                    · exact ih _ _ _ _ _ _ _ _
                        (guarded_register_preserves _ _ _ _ _ _
                          (guarded_register_preserves _ _ _ _ _ _ hA)) heq
                  · simp only [Option.some.injEq, Except.ok.injEq,
                      Prod.mk.injEq] at heq
                    rw [← heq.1]
                    exact hA

/-- C3 (amended): direct `RegisterStructType` overwrites (second
registration wins, see `register_struct_type_second_wins`); the
first-registration-wins/no-op behavior holds on the nested-type discovery
path, where every registration is guarded by a presence check: any name
already present in the registry keeps its originally registered descriptor
set across a whole `registerNestedTypes` walk. -/
theorem nested_registration_preserves_existing :
    ∀ (fuel : Nat) (env : TypeEnv) (tp : TypeProvider) (raw : GoVal)
      (visited : List GoTy) (name : String) (m : FMap)
      (tp' : TypeProvider) (vis' : List GoTy),
      alFind tp.Structs name = some m →
      registerNestedTypesFuel fuel env tp raw visited =
        some (.ok (tp', vis')) →
      alFind tp'.Structs name = some m :=
  fun fuel => rnf_preserves_structs fuel

/-- Witness for the amended C3: a concrete one-step walk leaves a
pre-registered name bound to its original descriptor set. -/
theorem nested_registration_preserves_existing_witness :
    alFind (RegisterStructType NewTypeProvider "main.T" c3fields1).Structs
      "main.T" = some c3fields1 :=
  nested_registration_preserves_existing 1 []
    (RegisterStructType NewTypeProvider "main.T" c3fields1)
    (GoVal.primV .intP true 0) [] "main.T" c3fields1
    (RegisterStructType NewTypeProvider "main.T" c3fields1)
    [GoTy.primT .intP] rfl rfl

/-! ## Claim C2 — descriptor-name uniqueness and the collision panic -/

theorem alKeys_alInsert_mem {α : Type} (l : List (String × α)) (k : String)
    (v : α) (h : k ∈ alKeys l) : alKeys (alInsert l k v) = alKeys l := by
  induction l with
  | nil => simp [alKeys] at h
  | cons hd t ih =>
      rw [alKeys_cons] at h
      rw [alInsert]
      by_cases hk : hd.1 = k
      · rw [if_pos hk, alKeys_cons, alKeys_cons, hk]
      · have ht : k ∈ alKeys t := by
          rcases List.mem_cons.1 h with he | ht
          · exact absurd he.symm hk
          · exact ht
        rw [if_neg hk, alKeys_cons, alKeys_cons, ih ht]

theorem alKeys_alInsert_nodup {α : Type} (l : List (String × α)) (k : String)
    (v : α) (h : (alKeys l).Nodup) : (alKeys (alInsert l k v)).Nodup := by
  by_cases hm : k ∈ alKeys l
  · rw [alKeys_alInsert_mem l k v hm]
    exact h
  · rw [alKeys_alInsert_fresh l k v hm]
    refine List.nodup_append.2 ⟨h, List.nodup_singleton k, ?_⟩
    intro a ha hk'
    rw [List.mem_singleton] at hk'
    subst hk'
    exact hm ha

theorem alInsert_guard_nodup (fields : FMap) (key : String) (v : FieldDesc)
    (h : (alKeys fields).Nodup) :
    (alKeys (if alFind fields key = none then alInsert fields key v
             else fields)).Nodup := by
  split
  · exact alKeys_alInsert_nodup fields key v h
  · exact h

theorem ppFields_nodup_aux (n : Nat) :
    ∀ (fs : GoFields), sizeOf fs ≤ n →
      ∀ (fields : FMap) (pfx : List String),
        (alKeys fields).Nodup → (alKeys (ppFields fields fs pfx)).Nodup := by
  induction n with
  | zero =>
      intro fs hsz
      cases fs <;> simp_arith [GoFields.nilF.sizeOf_spec,
        GoFields.consF.sizeOf_spec] at hsz
  | succ k ih =>
      intro fs hsz fields pfx h
      match fs with
      | .nilF => simpa [ppFields] using h
      | .consF fname anon declTy fval rest =>
          have hszr : sizeOf rest ≤ k := by
            simp_arith [GoFields.consF.sizeOf_spec] at hsz
            omega
          rw [ppFields.eq_def]
          dsimp only
          split
          · exact ih rest hszr fields pfx h
          · split
            · -- struct-like branch
              apply ih rest hszr _ pfx
              have h1 : (alKeys
                  (if alFind fields (toSnakeCase fname) = none then
                    alInsert fields (toSnakeCase fname)
                      (FieldDesc.nestedD (pfx ++ [fname])
                        (wrapperTypeNameFor (stripOnePtrTy declTy))
                        (CelTy.objectT
                          (wrapperTypeNameFor (stripOnePtrTy declTy))))
                  else fields)).Nodup :=
                alInsert_guard_nodup fields _ _ h
              split
              · rw [processPromotedFields.eq_def]
                split
                · next elemTy nm fs' hfv =>
                    have hsz' : sizeOf fs' ≤ k := by
                      simp_arith [GoFields.consF.sizeOf_spec,
                        GoVal.ptrV.sizeOf_spec, Option.some.sizeOf_spec,
                        GoVal.structV.sizeOf_spec] at hsz
                      omega
                    exact ih fs' hsz' _ _ h1
                · next nm fs' hfv =>
                    have hsz' : sizeOf fs' ≤ k := by
                      simp_arith [GoFields.consF.sizeOf_spec,
                        GoVal.structV.sizeOf_spec] at hsz
                      omega
                    exact ih fs' hsz' _ _ h1
                · exact h1
              · exact h1
            · split
              · exact ih rest hszr fields pfx h
              · split
                · exact ih rest hszr fields pfx h
                · exact ih rest hszr _ pfx
                    (alKeys_alInsert_nodup fields _ _ h)

theorem processPromotedFields_nodup (v : GoVal) (fields : FMap)
    (pfx : List String) (b : Bool) (h : (alKeys fields).Nodup) :
    (alKeys (processPromotedFields fields v pfx b)).Nodup := by
  rw [processPromotedFields.eq_def]
  split
  · exact ppFields_nodup_aux _ _ le_rfl _ _ h
  · exact ppFields_nodup_aux _ _ le_rfl _ _ h
  · exact h

theorem piFields_nodup_aux (n : Nat) :
    ∀ (fs : GoFields), sizeOf fs ≤ n →
      ∀ (rootName : String) (fields m : FMap),
        (alKeys fields).Nodup →
        piFields rootName fields fs = .ok m → (alKeys m).Nodup := by
  induction n with
  | zero =>
      intro fs hsz
      cases fs <;> simp_arith [GoFields.nilF.sizeOf_spec,
        GoFields.consF.sizeOf_spec] at hsz
  | succ k ih =>
      intro fs hsz rootName fields m h hok
      match fs with
      | .nilF =>
          rw [piFields.eq_def] at hok
          dsimp only at hok
          cases hok
          exact h
      | .consF fname anon declTy fval rest =>
          have hszr : sizeOf rest ≤ k := by
            simp_arith [GoFields.consF.sizeOf_spec] at hsz
            omega
          rw [piFields.eq_def] at hok
          dsimp only at hok
          split at hok
          · exact ih rest hszr rootName fields m h hok
          · split at hok
            · exact ih rest hszr rootName fields m h hok
            · split at hok
              · exact ih rest hszr rootName fields m h hok
              · -- resolved interface, struct-like or leaf
                split at hok
                · refine ih rest hszr rootName _ m ?_ hok
                  split
                  · exact processPromotedFields_nodup _ _ _ _
                      (alInsert_guard_nodup fields _ _ h)
                  · exact alInsert_guard_nodup fields _ _ h
                · split at hok
                  · simp at hok
                  · exact ih rest hszr rootName _ m
                      (alKeys_alInsert_nodup fields _ _ h) hok
              · -- non-interface field, struct-like or leaf
                split at hok
                · refine ih rest hszr rootName _ m ?_ hok
                  split
                  · exact processPromotedFields_nodup _ _ _ _
                      (alInsert_guard_nodup fields _ _ h)
                  · exact alInsert_guard_nodup fields _ _ h
                · split at hok
                  · simp at hok
                  · exact ih rest hszr rootName _ m
                      (alKeys_alInsert_nodup fields _ _ h) hok

theorem processImmediateFields_nodup (v : GoVal) (fields m : FMap)
    (h : (alKeys fields).Nodup)
    (hok : processImmediateFields fields v = .ok m) : (alKeys m).Nodup := by
  rw [processImmediateFields.eq_def] at hok
  split at hok
  · exact piFields_nodup_aux _ _ le_rfl _ _ _ h hok
  · exact piFields_nodup_aux _ _ le_rfl _ _ _ h hok
  · cases hok
    exact h

/-- C2 (amended): descriptor names are pairwise distinct whenever the
builder succeeds — for every raw value on which `newFieldsFromRaw` returns
a descriptor set, the CEL names of that set are `Nodup` (every insertion
is either freshness-guarded or preceded by the collision check); and the
collision half of the claim holds as stated: a struct with two distinct
same-level fields normalizing to the same name (`FooBar` and `Foo_Bar`
both normalize to `foo_bar`) makes descriptor construction raise the fatal
collision panic (`Except.error`), aborting setup rather than silently
dropping a mapping.  The claim's universal half is false as frozen —
distinct *leaf* names do not guarantee success, because nested-object
names share the leaf namespace (see `nested_leaf_collision_aborts`). -/
theorem field_names_unique_on_success :
    (∀ (raw : GoVal) (m : FMap),
      newFieldsFromRaw raw = .ok m → (alKeys m).Nodup) ∧
    (∃ e, newFieldsFromRaw (.structV "main.T"
        (.consF "FooBar" false (.primT .strP) (.primV .strP false 0)
          (.consF "Foo_Bar" false (.primT .intP) (.primV .intP false 0)
            .nilF))) = .error e) ∧
    toSnakeCase "FooBar" = toSnakeCase "Foo_Bar" ∧
    "FooBar" ≠ "Foo_Bar" := by
  refine ⟨?_, ⟨_, rfl⟩, by decide, by decide⟩
  intro raw m hok
  rw [newFieldsFromRaw.eq_def] at hok
  split at hok
  · exact processImmediateFields_nodup _ _ m (by simp [alKeys]) hok
  · exact processImmediateFields_nodup _ _ m (by simp [alKeys]) hok

/-- Witness for C2's success half at a concrete two-field struct. -/
theorem field_names_unique_on_success_witness :
    (alKeys [("name", FieldDesc.primD ["Name"] (.primT .strP) .stringT),
             ("age", FieldDesc.primD ["Age"] (.primT .intP) .intT)]).Nodup :=
  field_names_unique_on_success.1
    (.structV "main.T"
      (.consF "Name" false (.primT .strP) (.primV .strP false 0)
        (.consF "Age" false (.primT .intP) (.primV .intP false 7) .nilF)))
    [("name", FieldDesc.primD ["Name"] (.primT .strP) .stringT),
     ("age", FieldDesc.primD ["Age"] (.primT .intP) .intT)]
    rfl

/-- Spec-side reading of the C2 precondition: the normalized names of the
exposed *leaf* fields — exported, non-function, and not exposed as
nested-object descriptors (struct-like non-timestamp fields are nested
objects, not leaves). -/
def leafSnakeNames : GoFields → List String
  | .nilF => []
  | .consF fname _ declTy fval rest =>
      if isExportedName fname = true ∧ isFuncVal fval = false ∧
          ¬(isStructLikeVal fval = true ∧ stripOnePtrTy declTy ≠ GoTy.timeT)
      then toSnakeCase fname :: leafSnakeNames rest
      else leafSnakeNames rest

/-- A named (non-anonymous) nested struct field `Foo_Bar main.Inner`
followed by the primitive leaf `FooBar int`: two distinct exported fields
whose names normalize to the same `foo_bar`, but only one of which is a
leaf. -/
def c2crossFields : GoFields :=
  .consF "Foo_Bar" false (.structT "main.Inner")
    (.structV "main.Inner"
      (.consF "X" false (.primT .intP) (.primV .intP false 0) .nilF))
    (.consF "FooBar" false (.primT .intP) (.primV .intP false 1) .nilF)

/-- C2 counterexample: the claim's universal half is false of the program.
The struct `type T struct { Foo_Bar Inner; FooBar int }` has exactly one
exposed leaf field (`FooBar`), so its leaf names are trivially
pairwise-distinct after normalization; yet building its descriptor set
panics: the named nested field `Foo_Bar` first installs a guarded
nested-object descriptor under `foo_bar` (src/object.go line 389), and the
leaf `FooBar` then reaches the primitive branch with `fields[foo_bar]`
already present and hits the collision panic (src/object.go lines
451–452) — instead of yielding one descriptor per leaf. -/
theorem nested_leaf_collision_aborts :
    (leafSnakeNames c2crossFields).Nodup ∧
    leafSnakeNames c2crossFields = ["foo_bar"] ∧
    newFieldsFromRaw (.structV "main.T" c2crossFields) =
      .error ("xcel: field name collision for CEL name foo_bar on main.T"
        ++ " (Go field: FooBar)") :=
  ⟨by decide, by decide, rfl⟩


/-! ## Claim C4 — first-writer-wins promotion and the manual overlay -/

theorem alInsert_guard_preserves (fields : FMap) (key : String)
    (v : FieldDesc) (name : String) (d : FieldDesc)
    (h : alFind fields name = some d) :
    alFind (if alFind fields key = none then alInsert fields key v
            else fields) name = some d := by
  by_cases hk : alFind fields key = none
  · rw [if_pos hk]
    have hne : key ≠ name := by
      intro e
      rw [e, h] at hk
      cases hk
    rw [alFind_alInsert_ne _ _ _ _ hne]
    exact h
  · rw [if_neg hk]
    exact h

theorem ppFields_preserves_aux (n : Nat) :
    ∀ (fs : GoFields), sizeOf fs ≤ n →
      ∀ (fields : FMap) (pfx : List String) (name : String) (d : FieldDesc),
        alFind fields name = some d →
        alFind (ppFields fields fs pfx) name = some d := by
  induction n with
  | zero =>
      intro fs hsz
      cases fs <;> simp_arith [GoFields.nilF.sizeOf_spec,
        GoFields.consF.sizeOf_spec] at hsz
  | succ k ih =>
      intro fs hsz fields pfx name d h
      match fs with
      | .nilF => simpa [ppFields] using h
      | .consF fname anon declTy fval rest =>
          have hszr : sizeOf rest ≤ k := by
            simp_arith [GoFields.consF.sizeOf_spec] at hsz
            omega
          rw [ppFields.eq_def]
          dsimp only
          split
          · exact ih rest hszr fields pfx name d h
          · split
            · -- struct-like branch
              apply ih rest hszr _ pfx name d
              have h1 : alFind
                  (if alFind fields (toSnakeCase fname) = none then
                    alInsert fields (toSnakeCase fname)
                      (FieldDesc.nestedD (pfx ++ [fname])
                        (wrapperTypeNameFor (stripOnePtrTy declTy))
                        (CelTy.objectT
                          (wrapperTypeNameFor (stripOnePtrTy declTy))))
                  else fields) name = some d :=
                alInsert_guard_preserves fields _ _ name d h
              split
              · -- anonymous: promotion recursion
                rw [processPromotedFields.eq_def]
                split
                · next elemTy nm fs' hfv =>
                    have hsz' : sizeOf fs' ≤ k := by
                      simp_arith [GoFields.consF.sizeOf_spec,
                        GoVal.ptrV.sizeOf_spec, Option.some.sizeOf_spec,
                        GoVal.structV.sizeOf_spec] at hsz
                      omega
                    exact ih fs' hsz' _ _ name d h1
                · next nm fs' hfv =>
                    have hsz' : sizeOf fs' ≤ k := by
                      simp_arith [GoFields.consF.sizeOf_spec,
                        GoVal.structV.sizeOf_spec] at hsz
                      omega
                    exact ih fs' hsz' _ _ name d h1
                · exact h1
              · exact h1
            · split
              · exact ih rest hszr fields pfx name d h
              · split
                · exact ih rest hszr fields pfx name d h
                · next hnone =>
                    apply ih rest hszr _ pfx name d
                    have hne : toSnakeCase fname ≠ name := by
                      intro e
                      rw [e, h] at hnone
                      cases hnone
                    rw [alFind_alInsert_ne _ _ _ _ hne]
                    exact h

theorem overlay_cons (auto : FMap) (p : String × FieldDesc) (rest : FMap) :
    overlayFMap auto (p :: rest) = overlayFMap (alInsert auto p.1 p.2) rest :=
  rfl

theorem overlay_notin (auto manual : FMap) (k : String)
    (h : k ∉ alKeys manual) :
    alFind (overlayFMap auto manual) k = alFind auto k := by
  induction manual generalizing auto with
  | nil => rfl
  | cons p rest ih =>
      rw [alKeys_cons] at h
      simp only [List.mem_cons] at h
      push_neg at h
      rw [overlay_cons, ih _ h.2]
      exact alFind_alInsert_ne _ _ _ _ (fun e => h.1 e.symm)

theorem overlay_wins (auto manual : FMap) (k : String)
    (hnd : (alKeys manual).Nodup) (hk : k ∈ alKeys manual) :
    alFind (overlayFMap auto manual) k = alFind manual k := by
  induction manual generalizing auto with
  | nil => cases hk
  | cons p rest ih =>
      obtain ⟨k0, v0⟩ := p
      rw [alKeys_cons] at hnd hk
      rw [List.nodup_cons] at hnd
      rw [overlay_cons]
      by_cases he : k = k0
      · subst he
        rw [overlay_notin _ rest k hnd.1]
        rw [alFind_alInsert_self]
        simp [alFind]
      · have hkr : k ∈ alKeys rest := by
          rcases List.mem_cons.1 hk with h1 | h1
          · exact absurd h1 he
          · exact h1
        rw [ih (alInsert auto k0 v0) hnd.2 hkr]
        have : ¬(k0 = k) := fun e => he e.symm
        simp [alFind, this]

/-- C4: (1) promotion never overwrites — a name already present in the
descriptor set being built keeps its first-written descriptor through any
`processPromotedFields` pass, so the later (promoted) descriptor is
discarded; (2) the caller-supplied manual map is applied as an overlay
after full automatic derivation: every name in the manual map ends up bound
to the manual descriptor, and names not in the manual map keep the
auto-derived one; (3) consequently `RegisterObject` registers exactly the
auto-derived set overlaid with the manual map under the CEL type name. -/
theorem promotion_first_wins_and_overlay :
    (∀ (fields : FMap) (v : GoVal) (pfx : List String) (a : Bool)
        (name : String) (d : FieldDesc),
      alFind fields name = some d →
      alFind (processPromotedFields fields v pfx a) name = some d) ∧
    (∀ (auto manual : FMap) (k : String),
      (alKeys manual).Nodup → k ∈ alKeys manual →
      alFind (overlayFMap auto manual) k = alFind manual k) ∧
    (∀ (auto manual : FMap) (k : String), k ∉ alKeys manual →
      alFind (overlayFMap auto manual) k = alFind auto k) ∧
    (∀ (env : TypeEnv) (ta : TypeAdapter) (tp : TypeProvider)
        (objt : ObjWrapper) (t : CelTy) (manual auto : FMap)
        (ta' : TypeAdapter) (tp' : TypeProvider),
      NewFields objt = .ok auto →
      RegisterObject env ta tp objt t (some manual) = some (.ok (ta', tp')) →
      alFind tp'.Structs (celTypeName t) = some (overlayFMap auto manual)) := by
  refine ⟨?_, overlay_wins, overlay_notin, ?_⟩
  · intro fields v pfx a name d h
    rw [processPromotedFields.eq_def]
    split
    · exact ppFields_preserves_aux (sizeOf _) _ le_rfl fields _ name d h
    · exact ppFields_preserves_aux (sizeOf _) _ le_rfl fields _ name d h
    · exact h
  · intro env ta tp objt t manual auto ta' tp' h1 h2
    simp only [RegisterObject, h1] at h2
    split at h2
    · simp at h2
    · simp at h2
    · next tp5 vis5 heq =>
        simp only [Option.some.injEq, Except.ok.injEq, Prod.mk.injEq] at h2
        rw [← h2.2]
        refine rnf_preserves_structs _ _ _ _ _ _ _ _ _ ?_ heq
        simp only [RegisterStructType, registerStructFieldType, RegisterType]
        by_cases hn : typeNameOfTy (stripPtrTy (typeOfVal objt.raw)) =
            celTypeName t
        · rw [hn, alFind_alInsert_self]
        · rw [alFind_alInsert_ne _ _ _ _ hn, alFind_alInsert_self]

/-- Witness for C4: on a concrete auto map and manual map sharing the name
`a`, the overlay binds `a` to the manual descriptor. -/
theorem promotion_first_wins_and_overlay_witness :
    alFind (overlayFMap
        [("a", FieldDesc.primD ["A"] (.primT .strP) .stringT)]
        [("a", FieldDesc.primD ["A2"] (.primT .intP) .intT)]) "a" =
      some (FieldDesc.primD ["A2"] (.primT .intP) .intT) := by
  rw [promotion_first_wins_and_overlay.2.1
    [("a", FieldDesc.primD ["A"] (.primT .strP) .stringT)]
    [("a", FieldDesc.primD ["A2"] (.primT .intP) .intT)] "a"
    (by decide) (by decide)]
  rfl

/-! ## Claim C5 — adapter behavior after `RegisterObject` -/

theorem taFind_taInsert_self (l : TypeAdapter) (k : GoTy)
    (v : AnyVal → RefVal) : taFind (taInsert l k v) k = some v := by
  induction l with
  | nil => simp [taInsert, taFind]
  | cons h t ih =>
      by_cases hk : h.1 = k
      · simp [taInsert, hk, taFind]
      · simp [taInsert, hk, taFind, ih]

theorem taFind_taInsert_ne (l : TypeAdapter) (k k' : GoTy)
    (v : AnyVal → RefVal) (h : k ≠ k') :
    taFind (taInsert l k v) k' = taFind l k' := by
  have h' : ¬(k' = k) := fun e => h e.symm
  induction l with
  | nil => simp [taInsert, taFind, h]
  | cons hd t ih =>
      by_cases hk : hd.1 = k
      · simp [taInsert, hk, taFind, h, h']
      · by_cases hk' : hd.1 = k'
        · simp [taInsert, hk, taFind, hk', h']
        · simp [taInsert, hk, taFind, hk', ih]

/-- C5: after a successful `RegisterObject`, (1) converting any value whose
exact runtime type equals the registered native type returns the registered
wrapper instance itself; (2) the entry registered under the wrapper's own
type is exactly `wrapperAdapterFn`, which (3) passes through values that
are already host-runtime values and (4) wraps a bare native value of the
expected type; (5) an already-wrapped value of the registered wrapper type
passes through `NativeToValue` unchanged; and (6) any value with no exact
native-type match falls back to the host runtime's default conversion. -/
theorem register_object_adapter_spec :
    ∀ (env : TypeEnv) (ta : TypeAdapter) (tp : TypeProvider)
      (objt : ObjWrapper) (t : CelTy) (fields : Option FMap)
      (ta' : TypeAdapter) (tp' : TypeProvider),
      RegisterObject env ta tp objt t fields = some (.ok (ta', tp')) →
      (∀ v : AnyVal,
        reflectTypeOfAny v = typeOfVal objt.raw →
        typeOfVal objt.raw ≠ wrapperReflectTy objt.tyParam →
        NativeToValue ta' v = .objV objt) ∧
      (taFind ta' (wrapperReflectTy objt.tyParam) =
        some (wrapperAdapterFn objt.tyParam)) ∧
      (∀ r : RefVal, wrapperAdapterFn objt.tyParam (.refV r) = r) ∧
      (∀ g : GoVal, typeOfVal g = objt.tyParam →
        wrapperAdapterFn objt.tyParam (.goV g) =
          .objV (NewObject objt.tyParam g).1) ∧
      (∀ w : ObjWrapper, w.tyParam = objt.tyParam →
        NativeToValue ta' (.refV (.objV w)) = .objV w) ∧
      (∀ v : AnyVal, taFind ta' (reflectTypeOfAny v) = none →
        NativeToValue ta' v = .defaultConv v) := by
  intro env ta tp objt t fields ta' tp' h2
  simp only [RegisterObject] at h2
  split at h2
  · simp at h2
  · split at h2
    · simp at h2
    · simp at h2
    · next tp5 vis5 heq =>
        simp only [Option.some.injEq, Except.ok.injEq, Prod.mk.injEq] at h2
        have hta : ta' = taInsert
            (taInsert ta (typeOfVal objt.raw) (fun _ => RefVal.objV objt))
            (wrapperReflectTy objt.tyParam) (wrapperAdapterFn objt.tyParam) :=
          h2.1.symm
        subst hta
        refine ⟨?_, ?_, ?_, ?_, ?_, ?_⟩
        · intro v hv hne
          rw [NativeToValue, hv,
            taFind_taInsert_ne _ _ _ _ (fun e => hne e.symm),
            taFind_taInsert_self]
        · exact taFind_taInsert_self _ _ _
        · intro r
          rfl
        · intro g hg
          simp [wrapperAdapterFn, hg]
        · intro w hw
          have : reflectTypeOfAny (.refV (.objV w)) =
              wrapperReflectTy objt.tyParam := by
            simp [reflectTypeOfAny, hw]
          rw [NativeToValue, this, taFind_taInsert_self]
          rfl
        · intro v hv
          rw [NativeToValue, hv]

/-- The concrete wrapper used by the C5 witness. -/
def c5obj : ObjWrapper :=
  ⟨.ptrT (.structT "main.P"),
    .ptrV (.structT "main.P")
      (some (.structV "main.P"
        (.consF "Name" false (.primT .strP) (.primV .strP false 1) .nilF))),
    none⟩

/-- The adapter produced by a concrete successful `RegisterObject` run. -/
def c5ta : TypeAdapter :=
  match RegisterObject [] [] NewTypeProvider c5obj (.objectT "main.P") none with
  | some (.ok (ta', _)) => ta'
  | _ => []

/-- The provider produced by the same run. -/
def c5tp : TypeProvider :=
  match RegisterObject [] [] NewTypeProvider c5obj (.objectT "main.P") none with
  | some (.ok (_, tp')) => tp'
  | _ => NewTypeProvider

/-- Witness for C5 on the concrete run: a bare native value of the
registered type converts to the registered wrapper itself; an
already-wrapped value passes through; a value of an unregistered type falls
back to the default conversion. -/
theorem register_object_adapter_spec_witness :
    NativeToValue c5ta (.goV c5obj.raw) = .objV c5obj ∧
    NativeToValue c5ta (.refV (.objV c5obj)) = .objV c5obj ∧
    NativeToValue c5ta (.goV (.timeV true)) =
      .defaultConv (.goV (.timeV true)) := by
  have h := register_object_adapter_spec [] [] NewTypeProvider c5obj
    (.objectT "main.P") none c5ta c5tp rfl
  refine ⟨?_, ?_, ?_⟩
  · exact h.1 (.goV c5obj.raw) rfl (by decide)
  · exact h.2.2.2.2.1 c5obj rfl
  · exact h.2.2.2.2.2 (.goV (.timeV true)) rfl

/-! ## Claim C6 — cycle safety of nested-type discovery -/

theorem alFind_some_mem_keys {α : Type} (l : List (String × α)) (k : String)
    (v : α) (h : alFind l k = some v) : k ∈ alKeys l := by
  by_contra hmem
  rw [← alFind_eq_none_iff] at hmem
  rw [hmem] at h
  cases h

theorem fieldsToList_mkGoFields (l : List (String × Bool × GoTy × GoVal)) :
    fieldsToList (mkGoFields l) = l := by
  induction l with
  | nil => rfl
  | cons p rest ih =>
      obtain ⟨a, b, c, d⟩ := p
      simp [mkGoFields, fieldsToList, ih]

/-- Invariant transfer through a left fold, with membership. -/
theorem foldl_pres_mem {α β : Type} {P : β → Prop} (f : β → α → β) :
    ∀ (l : List α) (init : β), P init →
      (∀ b a, a ∈ l → P b → P (f b a)) → P (l.foldl f init) := by
  intro l
  induction l with
  | nil => intro init h _; exact h
  | cons a t ih =>
      intro init h hs
      exact ih (f init a) (hs init a (List.mem_cons_self _ _) h)
        (fun b x hx pb => hs b x (List.mem_cons_of_mem _ hx) pb)

theorem length_filter_mono {α : Type} (l : List α) (p q : α → Bool)
    (h : ∀ x, q x = true → p x = true) :
    (l.filter q).length ≤ (l.filter p).length := by
  induction l with
  | nil => simp
  | cons a t ih =>
      by_cases hq : q a = true
      · simp [List.filter, hq, h a hq]
        omega
      · have hq' : q a = false := Bool.eq_false_iff.2 hq
        by_cases hp : p a = true
        · simp [List.filter, hq', hp]
          omega
        · have hp' : p a = false := Bool.eq_false_iff.2 hp
          simp [List.filter, hq', hp']
          exact ih

theorem length_filter_lt {α : Type} (l : List α) (p q : α → Bool)
    (h : ∀ x, q x = true → p x = true) (n : α) (hn : n ∈ l)
    (hp : p n = true) (hq : q n = false) :
    (l.filter q).length < (l.filter p).length := by
  induction l with
  | nil => cases hn
  | cons a t ih =>
      by_cases he : a = n
      · subst he
        simp [List.filter, hp, hq]
        have := length_filter_mono t p q h
        omega
      · have hn' : n ∈ t := by
          rcases List.mem_cons.1 hn with h1 | h1
          · exact absurd h1.symm he
          · exact h1
        by_cases hqa : q a = true
        · simp [List.filter, hqa, h a hqa]
          exact ih hn'
        · have hq' : q a = false := Bool.eq_false_iff.2 hqa
          by_cases hpa : p a = true
          · simp [List.filter, hq', hpa]
            have := ih hn'
            omega
          · have hp' : p a = false := Bool.eq_false_iff.2 hpa
            simp [List.filter, hq', hp']
            exact ih hn'

/-- The number of environment type names not yet in the visited set. -/
def envUnvisited (env : TypeEnv) (visited : List GoTy) : Nat :=
  ((env.map Prod.fst).filter
    (fun nm => decide (GoTy.structT nm ∉ visited))).length

theorem envUnvisited_le (env : TypeEnv) (visited : List GoTy) :
    envUnvisited env visited ≤ env.length := by
  have h1 := List.length_filter_le
    (fun nm => decide (GoTy.structT nm ∉ visited)) (env.map Prod.fst)
  simpa [envUnvisited] using h1

theorem envUnvisited_mono (env : TypeEnv) (visited visited' : List GoTy)
    (h : visited ⊆ visited') :
    envUnvisited env visited' ≤ envUnvisited env visited := by
  refine length_filter_mono _ _ _ ?_
  intro x hx
  simp only [decide_eq_true_eq] at hx ⊢
  intro hmem
  exact hx (h hmem)

theorem envUnvisited_lt (env : TypeEnv) (visited : List GoTy) (nm : String)
    (hmem : nm ∈ env.map Prod.fst) (hnv : GoTy.structT nm ∉ visited) :
    envUnvisited env (GoTy.structT nm :: visited) < envUnvisited env visited := by
  refine length_filter_lt _ _ _ ?_ nm hmem ?_ ?_
  · intro x hx
    simp only [decide_eq_true_eq] at hx ⊢
    intro hmem'
    exact hx (List.mem_cons_of_mem _ hmem')
  · simp [hnv]
  · simp

/-- The visited set only grows across a nested-discovery walk. -/
theorem rnf_visited_mono (fuel : Nat) :
    ∀ (env : TypeEnv) (tp : TypeProvider) (raw : GoVal) (visited : List GoTy)
      (tp' : TypeProvider) (vis' : List GoTy),
      registerNestedTypesFuel fuel env tp raw visited =
        some (.ok (tp', vis')) →
      visited ⊆ vis' := by
  induction fuel with
  | zero =>
      intro env tp raw visited tp' vis' h
      simp [registerNestedTypesFuel] at h
  | succ f ih =>
      intro env tp raw visited tp' vis' h
      rw [registerNestedTypesFuel.eq_def] at h
      dsimp only at h
      split at h
      · simp only [Option.some.injEq, Except.ok.injEq, Prod.mk.injEq] at h
        rw [← h.2]
        exact List.Subset.refl _
      · refine foldl_pres (P := fun acc => ∀ t v,
            acc = some (Except.ok (t, v)) → visited ⊆ v) _ _ _ ?_ ?_ tp' vis' h
        · intro t v heq
          simp only [Option.some.injEq, Except.ok.injEq, Prod.mk.injEq] at heq
          rw [← heq.2]
          exact fun x hx => List.mem_cons_of_mem _ hx
        · intro b a hb t v heq
          match b with
          | none => simp at heq
          | some (.error e) => simp at heq
          | some (.ok (tpA, visA)) =>
              have hA : visited ⊆ visA := hb _ _ rfl
              dsimp only at heq
              split at heq
              · simp only [Option.some.injEq, Except.ok.injEq,
                  Prod.mk.injEq] at heq
                rw [← heq.2]
                exact hA
              · split at heq
                · simp only [Option.some.injEq, Except.ok.injEq,
                    Prod.mk.injEq] at heq
                  rw [← heq.2]
                  exact hA
                · split at heq
                  · split at heq
                    · simp at heq
                    · exact List.Subset.trans hA (ih _ _ _ _ _ _ heq)
                  · simp only [Option.some.injEq, Except.ok.injEq,
                      Prod.mk.injEq] at heq
                    rw [← heq.2]
                    exact hA

theorem zeroValT_structT (fuel : Nat) (env : TypeEnv) (m : String) :
    ∃ gfs, zeroValT fuel env (GoTy.structT m) = GoVal.structV m gfs := by
  cases fuel with
  | zero => exact ⟨.nilF, rfl⟩
  | succ k =>
      cases h : alFind env m with
      | none => exact ⟨.nilF, by simp [zeroValT, h]⟩
      | some decls =>
          exact ⟨mkGoFields (decls.map (fun d => (d.fname, d.anonymous,
            d.declTy, zeroValT k env d.declTy))), by simp [zeroValT, h]⟩

/-- Fuel sufficiency for the recursive calls of the nested-discovery walk:
the walk always recurses on a pointer to a fresh zero value, and each
non-skipped entry adds an unvisited environment type name to the visited
set, so `envUnvisited` strictly decreases along every recursion chain. -/
theorem rnQ (fuel : Nat) :
    ∀ (env : TypeEnv) (tp : TypeProvider) (u : GoTy) (visited : List GoTy),
      envUnvisited env visited + 2 ≤ fuel →
      registerNestedTypesFuel fuel env tp
        (GoVal.ptrV u (some (zeroValT (env.length + 1) env u))) visited ≠
        none := by
  induction fuel with
  | zero => intro env tp u visited hf; omega
  | succ f ih =>
      intro env tp u visited hf
      rw [registerNestedTypesFuel.eq_def]
      dsimp only
      split
      · simp
      · next hvt =>
          match u with
          | .primT k => simp [zeroValT]
          | .timeT => simp [zeroValT]
          | .funcT => simp [zeroValT]
          | .ifaceT => simp [zeroValT]
          | .ptrT e => simp [zeroValT]
          | .structT nm =>
              have hvt' : GoTy.structT nm ∉ visited := by
                simpa [typeOfVal, stripPtrTy] using hvt
              cases henv : alFind env nm with
              | none =>
                  rw [show zeroValT (env.length + 1) env (GoTy.structT nm) =
                    GoVal.structV nm .nilF by simp [zeroValT, henv]]
                  simp [fieldsToList]
              | some decls =>
                  have hnm : nm ∈ env.map Prod.fst :=
                    alFind_some_mem_keys env nm decls henv
                  rw [show zeroValT (env.length + 1) env (GoTy.structT nm) =
                    GoVal.structV nm (mkGoFields (decls.map
                      (fun d => (d.fname, d.anonymous, d.declTy,
                        zeroValT env.length env d.declTy))))
                    by simp [zeroValT, henv]]
                  dsimp only
                  rw [fieldsToList_mkGoFields]
                  have hlt : envUnvisited env (GoTy.structT nm :: visited) <
                      envUnvisited env visited :=
                    envUnvisited_lt env visited nm hnm hvt'
                  refine (foldl_pres_mem (P := fun acc => acc ≠ none ∧
                    ∀ t v, acc = some (Except.ok (t, v)) →
                      (GoTy.structT nm :: visited) ⊆ v) _ _ _ ?_ ?_).1
                  · refine ⟨by simp, ?_⟩
                    intro t v heq
                    simp only [Option.some.injEq, Except.ok.injEq,
                      Prod.mk.injEq] at heq
                    rw [← heq.2]
                    exact List.Subset.refl _
                  · intro b a hmem hb
                    obtain ⟨d, hd, ha⟩ := List.mem_map.1 hmem
                    match b with
                    | none => exact absurd rfl hb.1
                    | some (.error e) => exact hb
                    | some (.ok (tpA, visA)) =>
                        have hsub : (GoTy.structT nm :: visited) ⊆ visA :=
                          hb.2 _ _ rfl
                        obtain ⟨dn, da, dt⟩ := d
                        subst ha
                        dsimp only
                        by_cases hex : isExportedName dn = false
                        · rw [if_pos hex]
                          refine ⟨by simp, ?_⟩
                          intro t v heq
                          simp only [Option.some.injEq, Except.ok.injEq,
                            Prod.mk.injEq] at heq
                          rw [← heq.2]
                          exact hsub
                        · rw [if_neg hex]
                          have hkeep : ((some (Except.ok (tpA, visA)) :
                              Option (Except String
                                (TypeProvider × List GoTy))) ≠ none ∧
                              ∀ (t : TypeProvider) (v : List GoTy),
                                (some (Except.ok (tpA, visA)) :
                                  Option (Except String
                                    (TypeProvider × List GoTy))) =
                                some (Except.ok (t, v)) →
                                (GoTy.structT nm :: visited) ⊆ v) := by
                            refine ⟨by simp, ?_⟩
                            intro t v heq
                            simp only [Option.some.injEq, Except.ok.injEq,
                              Prod.mk.injEq] at heq
                            rw [← heq.2]
                            exact hsub
                          match dt with
                          | .primT k =>
                              simpa [zeroValT, isStructLikeVal,
                                stripOnePtrTy] using hkeep
                          | .timeT =>
                              simpa [zeroValT, isStructLikeVal,
                                stripOnePtrTy] using hkeep
                          | .funcT =>
                              simpa [zeroValT, isStructLikeVal,
                                stripOnePtrTy] using hkeep
                          | .ifaceT =>
                              simpa [zeroValT, isStructLikeVal,
                                stripOnePtrTy] using hkeep
                          | .ptrT e =>
                              simpa [zeroValT, isStructLikeVal,
                                stripOnePtrTy] using hkeep
                          | .structT m =>
                              obtain ⟨gfs, hz⟩ :=
                                zeroValT_structT env.length env m
                              rw [hz]
                              simp only [stripOnePtrTy]
                              rw [if_pos ⟨rfl, by simp⟩]
                              cases hnf : newFieldsFromRaw
                                  (GoVal.ptrV (GoTy.structT m)
                                    (some (zeroValT (env.length + 1) env
                                      (GoTy.structT m)))) with
                              | error e =>
                                  refine ⟨by simp, ?_⟩
                                  intro t v heq
                                  simp at heq
                              | ok nf =>
                                  dsimp only
                                  have hbound : envUnvisited env visA + 2 ≤ f := by
                                    have h1 : envUnvisited env visA ≤
                                        envUnvisited env
                                          (GoTy.structT nm :: visited) :=
                                      envUnvisited_mono env _ visA hsub
                                    omega
                                  refine ⟨ih env _ (GoTy.structT m) visA
                                    hbound, ?_⟩
                                  intro t v heq
                                  exact List.Subset.trans hsub
                                    (rnf_visited_mono f env _ _ visA t v heq)

/-- C6 (amended): the visited set makes the nested-type *registration
walk* cycle-safe, but it does not protect the descriptor *builder*.  The
walk (`registerNestedTypes`) terminates on every input value and every
type environment — including cyclic type graphs (a type reachable from
itself through struct or pointer-to-struct fields) — because it recurses
only on freshly-constructed zero values and skips visited types: fuel
`env.length + 3` never runs out, since each non-skipped entry adds its
underlying struct type (pointer indirections stripped) to the visited set;
and a value whose stripped type is already in the visited set is skipped
immediately, with registries and visited set returned unchanged.  The
original claim's "for every input value, building the field descriptor set
… terminates" is false: `processPromotedFields` recurses on the live value
with no visited set and diverges on a value realising a pointer cycle —
see `builder_diverges_on_cyclic_value`. -/
theorem nested_registration_cycle_safe :
    (∀ (env : TypeEnv) (tp : TypeProvider) (raw : GoVal)
        (visited : List GoTy),
      registerNestedTypesFuel (env.length + 3) env tp raw visited ≠ none) ∧
    (∀ (fuel : Nat) (env : TypeEnv) (tp : TypeProvider) (raw : GoVal)
        (vs : List GoTy),
      registerNestedTypesFuel (fuel + 1) env tp raw
        (stripPtrTy (typeOfVal raw) :: vs) =
        some (.ok (tp, stripPtrTy (typeOfVal raw) :: vs))) := by
  constructor
  · intro env tp raw visited
    rw [show env.length + 3 = (env.length + 2) + 1 from rfl]
    rw [registerNestedTypesFuel.eq_def]
    dsimp only
    split
    · simp
    · split
      · refine foldl_pres (P := fun acc => acc ≠ none) _ _ _ (by simp) ?_
        intro b a hb
        match b with
        | none => exact absurd rfl hb
        | some (.error e) => exact hb
        | some (.ok (tpA, visA)) =>
            dsimp only
            split
            · simp
            · split
              · simp
              · split
                · split
                  · simp
                  · exact rnQ (env.length + 2) env _ _ visA
                      (by have := envUnvisited_le env visA; omega)
                · simp
      · refine foldl_pres (P := fun acc => acc ≠ none) _ _ _ (by simp) ?_
        intro b a hb
        match b with
        | none => exact absurd rfl hb
        | some (.error e) => exact hb
        | some (.ok (tpA, visA)) =>
            dsimp only
            split
            · simp
            · split
              · simp
              · split
                · split
                  · simp
                  · exact rnQ (env.length + 2) env _ _ visA
                      (by have := envUnvisited_le env visA; omega)
                · simp
      · simp
  · intro fuel env tp raw vs
    rw [registerNestedTypesFuel.eq_def]
    dsimp only
    rw [if_pos (List.mem_cons_self _ _)]

theorem cyc_pp_none (fuel : Nat) :
    (∀ (fields : FMap) (pfx : List String),
      processPromotedFieldsH fuel cycHeap fields
        (HVal.hptrV (GoTy.structT "main.A") (some 0)) pfx true = none) ∧
    (∀ (fields : FMap) (pfx : List String),
      ppFieldsH fuel cycHeap fields cycFields pfx = none) := by
  induction fuel with
  | zero => exact ⟨fun _ _ => rfl, fun _ _ => rfl⟩
  | succ k ih =>
      constructor
      · intro fields pfx
        exact ih.2 fields pfx
      · intro fields pfx
        rw [ppFieldsH.eq_def]
        dsimp only [cycFields]
        rw [if_neg (by decide)]
        rw [if_pos ⟨by decide, by decide⟩]
        rw [if_pos rfl]
        rw [ih.1]

theorem cyc_pi_none (fuel : Nat) : ∀ (rootName : String) (fields : FMap),
    piFieldsH fuel cycHeap rootName fields cycFields = none := by
  cases fuel with
  | zero => exact fun _ _ => rfl
  | succ k =>
      intro rootName fields
      rw [piFieldsH.eq_def]
      dsimp only [cycFields]
      rw [if_neg (by decide)]
      rw [if_neg (by decide)]
      rw [if_pos ⟨by decide, by decide⟩]
      rw [if_pos rfl]
      rw [(cyc_pp_none k).1]

/-- C6 counterexample: the descriptor builder does not terminate on every
input value.  For the legal Go value `a` of `type A struct { *A }` with
`a.A = &a` (a struct type reachable from itself through a pointer-to-struct
field, and a value realising that cycle), `newFieldsFromRaw` recurses on
the live value through the anonymous embedding with no visited set
(src/object.go lines 440 and 569) and diverges: at every step budget
`fuel`, the step-indexed builder fails to finish.  On the acyclic variant
of the very same type (`a.A = nil`) it finishes at fuel 3 with the expected
single descriptor, so the divergence is due to the cycle, not the
step-indexing. -/
theorem builder_diverges_on_cyclic_value :
    (∀ fuel : Nat, newFieldsFromRawH fuel cycHeap cycVal = none) ∧
    newFieldsFromRawH 3 acycHeap cycVal =
      some (.ok [("a", .primD ["A"] (GoTy.ptrT (GoTy.structT "main.A"))
        (.objectT "main.A"))]) := by
  refine ⟨fun fuel => ?_, rfl⟩
  cases fuel with
  | zero => rfl
  | succ k => exact cyc_pi_none k "main.A" []
